import Mathlib

set_option autoImplicit false

/-!
Verification of the WCP package validator (`scripts/test_wcp_integration.py`).

The Python program is shallowly embedded: JSON values decoded by `json.load`
become the inductive `PyVal`, Python dictionary/string primitives become total
Lean functions returning `Except PyErr` where the Python operation can raise,
the filesystem and subprocess world seen by one validation run becomes the
`World` structure, and each validation stage becomes a function threading the
`St` record of accumulated errors, warnings and printed stage banners.

Conventions of the embedding:
* JSON floats are modelled as rationals (`Rat`); the non-finite floats
  `NaN`/`Infinity` are not modelled.
* Paths resolved against the scratch directory are identified by their
  relative path string; the filesystem is a set of pure predicates over
  those strings.
* `re.match` on the fixed WineInfo pattern is embedded as an explicit
  backtracking matcher (`pyMatch`) that mirrors the engine: alternatives are
  tried left to right, `+` is greedy with backtracking (longest split first),
  `-?` tries to consume before matching empty, the match is anchored at the
  start, and `$` matches at the end of the string or just before a single
  newline that ends the string.
-/

/-! ## Python values and primitive operations -/

/-- A value produced by `json.load` (plus `None`, which `dict.get` returns). -/
inductive PyVal where
  | none
  | bool (b : Bool)
  | int (n : Int)
  | float (q : Rat)
  | str (s : String)
  | list (vs : List PyVal)
  | dict (entries : List (String × PyVal))

/-- The Python exceptions the validator can raise or catch. -/
inductive PyErr where
  | typeError (msg : String)
  | valueError (msg : String)
  | attributeError (msg : String)
  | keyError (msg : String)
deriving DecidableEq, Repr

/-- Substring test on character lists (Python `k in s` for strings). -/
def listInfix (k : List Char) : List Char → Bool
  | [] => List.isPrefixOf k []
  | s@(_ :: rest) => List.isPrefixOf k s || listInfix k rest

/-- Python `==` between an arbitrary value and a string. -/
def valEqStr (v : PyVal) (k : String) : Bool :=
  match v with
  | .str s => s == k
  | _ => false

/-- Python `k in v` (membership test): key lookup for dicts, element equality
for lists, substring test for strings, `TypeError` otherwise. -/
def pyContains (v : PyVal) (k : String) : Except PyErr Bool :=
  match v with
  | .dict es => .ok (es.any (fun e => e.1 == k))
  | .list vs => .ok (vs.any (fun x => valEqStr x k))
  | .str s => .ok (listInfix k.data s.data)
  | _ => .error (.typeError "argument of type is not iterable")

/-- Python `v.get(k, default)`: only dicts have `.get`. -/
def pyGet (v : PyVal) (k : String) (default : PyVal) : Except PyErr PyVal :=
  match v with
  | .dict es => .ok ((es.lookup k).getD default)
  | _ => .error (.attributeError "object has no attribute get")

/-- Python `v[k]` for a string key. -/
def pyGetItem (v : PyVal) (k : String) : Except PyErr PyVal :=
  match v with
  | .dict es =>
    match es.lookup k with
    | some x => .ok x
    | Option.none => .error (.keyError k)
  | .str _ => .error (.typeError "string indices must be integers")
  | .list _ => .error (.typeError "list indices must be integers")
  | _ => .error (.typeError "object is not subscriptable")

/-- Python `Path(tempDir) / v`: succeeds only for a string, which names the
path relative to the scratch directory. -/
def pathJoin (v : PyVal) : Except PyErr String :=
  match v with
  | .str s => .ok s
  | _ => .error (.typeError "unsupported operand type for path join")

/-- The whitespace `int(str)` strips from both ends. -/
def isPySpace (c : Char) : Bool :=
  c == ' ' || c == '\t' || c == '\n' || c == '\r' || c == '\x0b' || c == '\x0c'

/-- Digit run with single underscores between digits, as `int(str)` accepts. -/
def goDigits (acc : Nat) : List Char → Option Nat
  | [] => some acc
  | '_' :: c :: rest =>
    if c.isDigit then goDigits (acc * 10 + (c.toNat - 48)) rest else Option.none
  | c :: rest =>
    if c.isDigit then goDigits (acc * 10 + (c.toNat - 48)) rest else Option.none

/-- Nonempty digit run (with underscore grouping) to a number. -/
def parseDigitsU : List Char → Option Nat
  | [] => Option.none
  | c :: rest => if c.isDigit then goDigits (c.toNat - 48) rest else Option.none

/-- Python `int(s)` on a string: strip whitespace, optional sign, digits with
underscore grouping (ASCII digits modelled). -/
def pyIntParse (s : String) : Option Int :=
  let cs := ((s.data.dropWhile isPySpace).reverse.dropWhile isPySpace).reverse
  match cs with
  | '+' :: rest => (parseDigitsU rest).map Int.ofNat
  | '-' :: rest => (parseDigitsU rest).map (fun n => -(Int.ofNat n))
  | rest => (parseDigitsU rest).map Int.ofNat

/-- Truncation toward zero of a rational, the value of `int(float)`. -/
def ratTrunc (q : Rat) : Int :=
  if 0 ≤ q.num then q.floor else q.ceil

/-- Python `int(v)`: ints and bools coerce, finite floats truncate, strings
parse as integer literals (`ValueError` otherwise), everything else is a
`TypeError`. -/
def pyIntCoerce (v : PyVal) : Except PyErr Int :=
  match v with
  | .int n => .ok n
  | .bool b => .ok (if b then 1 else 0)
  | .float q => .ok (ratTrunc q)
  | .str s =>
    match pyIntParse s with
    | some n => .ok n
    | Option.none => .error (.valueError ("invalid literal for int with base 10: " ++ s))
  | .none => .error (.typeError "int argument must be a string or a number, not NoneType")
  | .list _ => .error (.typeError "int argument must be a string or a number, not list")
  | .dict _ => .error (.typeError "int argument must be a string or a number, not dict")

/-- Python `type(v)` rendered as in an f-string. -/
def typeNameOf (v : PyVal) : String :=
  let n : String :=
    match v with
    | .none => "NoneType"
    | .bool _ => "bool"
    | .int _ => "int"
    | .float _ => "float"
    | .str _ => "str"
    | .list _ => "list"
    | .dict _ => "dict"
  "<class '" ++ n ++ "'>"

/-- Decimal rendering of a float value; Python float repr approximated. -/
def floatRepr (q : Rat) : String :=
  if q.den = 1 then toString q.num ++ ".0" else toString q

mutual

/-- Python `repr(v)` (best effort; used only inside diagnostic strings). -/
def pyReprV : PyVal → String
  | .none => "None"
  | .bool true => "True"
  | .bool false => "False"
  | .int n => toString n
  | .float q => floatRepr q
  | .str s => "'" ++ s ++ "'"
  | .list vs => "[" ++ pyReprList vs ++ "]"
  | .dict es => "\x7b" ++ pyReprDict es ++ "\x7d"

/-- Comma-joined reprs of a list's elements. -/
def pyReprList : List PyVal → String
  | [] => ""
  | [v] => pyReprV v
  | v :: rest => pyReprV v ++ ", " ++ pyReprList rest

/-- Comma-joined reprs of a dict's entries. -/
def pyReprDict : List (String × PyVal) → String
  | [] => ""
  | [e] => "'" ++ e.1 ++ "': " ++ pyReprV e.2
  | e :: rest => "'" ++ e.1 ++ "': " ++ pyReprV e.2 ++ ", " ++ pyReprDict rest

end

/-- Python `str(v)` as interpolated into an f-string. -/
def pyStr : PyVal → String
  | .str s => s
  | v => pyReprV v

/-- Python `repr` of a list of strings, as printed for the sample of
non-conforming prefix-pack paths. -/
def pyReprStrList (l : List String) : String :=
  "[" ++ String.intercalate ", " (l.map (fun s => "'" ++ s ++ "'")) ++ "]"

/-- Python `s.startswith(pre)`. -/
def pyStartsWith (s pre : String) : Bool :=
  List.isPrefixOf pre.data s.data

/-- ASCII lower-casing of one character. -/
def charLower (c : Char) : Char :=
  if 'A' ≤ c ∧ c ≤ 'Z' then Char.ofNat (c.toNat + 32) else c

/-- Python `s.lower()` (ASCII modelled, all the program's inputs to it). -/
def pyLower (s : String) : String :=
  String.mk (s.data.map charLower)

/-! ## WineInfoValidator: the identifier grammar

Pattern (anchored): `^(wine|proton|Proton)\-([0-9\.]+)\-?([0-9\.]+)?\-(x86|x86_64|arm64ec)$`.
`pyMatch` mirrors the backtracking engine on this pattern: alternatives in
source order, greedy `+` with backtracking (longest split first), `-?`
consuming before matching empty, `^` anchoring at the start and `$` matching
at the end of the string or just before one final newline. -/

/-- Membership in the character class `[0-9\.]`. -/
def classChar (c : Char) : Bool :=
  c.isDigit || c == '.'

/-- The alternatives of the fourth capture group, in source order. -/
def archAlts : List (List Char) :=
  ["x86".data, "x86_64".data, "arm64ec".data]

/-- The alternatives of the first capture group, in source order. -/
def famAlts : List (List Char) :=
  ["wine".data, "proton".data, "Proton".data]

/-- The splits `(captured, rest)` a greedy `[0-9\.]+` tries, longest first. -/
def splitsDesc (p : Char → Bool) (cs : List Char) : List (List Char × List Char) :=
  ((List.range (cs.takeWhile p).length).reverse).map
    (fun k => (cs.take (k + 1), cs.drop (k + 1)))

/-- Matches the alternation `(x86|x86_64|arm64ec)` followed by `$`. Python's
`$` (no `re.MULTILINE`) matches at the end of the string or just before one
newline that ends the string, so the remaining input may be the alternative
alone or the alternative followed by a single final `'\n'`. -/
def matchArchEnd (cs : List Char) : Option (List Char) :=
  archAlts.findSome? (fun a =>
    if cs = a then some a
    else if cs = a ++ ['\n'] then some a
    else Option.none)

/-- Matches `\-(x86|x86_64|arm64ec)$`. -/
def matchEnd (cs : List Char) : Option (List Char) :=
  match cs with
  | c :: rest => if c = '-' then matchArchEnd rest else Option.none
  | [] => Option.none

/-- Matches `([0-9\.]+)?\-(arch)$`: the optional group participates greedily
(longest run first), and only failing that is it skipped. -/
def matchG3End (cs : List Char) : Option (Option (List Char) × List Char) :=
  match (splitsDesc classChar cs).findSome?
      (fun s => (matchEnd s.2).map (fun a => (some s.1, a))) with
  | some r => some r
  | Option.none => (matchEnd cs).map (fun a => ((Option.none : Option (List Char)), a))

/-- Matches `\-?([0-9\.]+)?\-(arch)$`: `-?` consumes a hyphen first and
backtracks to the empty match. -/
def matchHyphG3End (cs : List Char) : Option (Option (List Char) × List Char) :=
  match cs with
  | c :: rest =>
    if c = '-' then
      match matchG3End rest with
      | some r => some r
      | Option.none => matchG3End (c :: rest)
    else matchG3End (c :: rest)
  | [] => matchG3End []

/-- Matches `([0-9\.]+)\-?([0-9\.]+)?\-(arch)$` with a greedy second group. -/
def matchTail (cs : List Char) : Option (List Char × Option (List Char) × List Char) :=
  (splitsDesc classChar cs).findSome?
    (fun s => (matchHyphG3End s.2).map (fun r => (s.1, r.1, r.2)))

/-- Strips an exact character-list prefix. -/
def stripPfx : List Char → List Char → Option (List Char)
  | [], cs => some cs
  | p :: ps, c :: cs => if c = p then stripPfx ps cs else Option.none
  | _ :: _, [] => Option.none

/-- The captured groups of a successful match of the WineInfo pattern. -/
structure MGroups where
  g1 : List Char
  g2 : List Char
  g3 : Option (List Char)
  g4 : List Char
deriving DecidableEq, Repr

/-- `re.match` of the WineInfo pattern against `s`, with its captures. -/
def pyMatch (s : String) : Option MGroups :=
  famAlts.findSome? (fun fam =>
    match stripPfx (fam ++ ['-']) s.data with
    | some rest => (matchTail rest).map (fun r => ⟨fam, r.1, r.2.1, r.2.2⟩)
    | Option.none => Option.none)

/-- The parsed fields `WineInfoValidator.validate_identifier` returns. -/
structure ParsedIdent where
  type : String
  version : String
  subversion : Option String
  arch : String
deriving DecidableEq, Repr

/-- `WineInfoValidator.validate_identifier`: match the pattern; on success the
family capture is lower-cased and an absent third group becomes `None`. -/
def validate_identifier (s : String) : Bool × Option ParsedIdent :=
  match pyMatch s with
  | Option.none => (false, Option.none)
  | some g =>
    (true, some ⟨pyLower (String.mk g.g1), String.mk g.g2,
      g.g3.map String.mk, String.mk g.g4⟩)

/-- `WineInfoValidator.construct_identifier`: return `version_name` unchanged
when it already starts with the lower-cased type and a hyphen, else prepend
them. -/
def construct_identifier (type_name version_name : String) : String :=
  if pyStartsWith version_name (pyLower type_name ++ "-") then version_name
  else pyLower type_name ++ "-" ++ version_name

/-! ## ContentProfileValidator -/

/-- `ContentProfileValidator.REQUIRED_FIELDS`. -/
def REQUIRED_FIELDS : List String :=
  ["type", "versionName", "versionCode", "description", "files"]

/-- `ContentProfileValidator.VALID_TYPES`. -/
def VALID_TYPES : List String :=
  ["Wine", "Proton", "DXVK", "VKD3D", "Box64", "WOWBox64", "FEXCore"]

/-- The pattern string interpolated into the identifier error message
(`WineInfoValidator.PATTERN.pattern`). -/
def patternStr : String :=
  "^(wine|proton|Proton)\\-([0-9\\.]+)\\-?([0-9\\.]+)?\\-(x86|x86_64|arm64ec)$"

/-- Is the value a string member of `VALID_TYPES`? (`profile_type not in
VALID_TYPES` is its negation; comparison with non-strings never matches.) -/
def typeInValidTypes (v : PyVal) : Bool :=
  match v with
  | .str s => VALID_TYPES.contains s
  | _ => false

/-- Python `profile_type in ['Wine', 'Proton']`. -/
def isWineProton (v : PyVal) : Bool :=
  valEqStr v "Wine" || valEqStr v "Proton"

/-- `section_key = 'wine' if profile_type == 'Wine' else 'proton'`. -/
def sectionKeyOf (v : PyVal) : String :=
  if valEqStr v "Wine" then "wine" else "proton"

/-- Is the value a Python list? (`isinstance(v, list)`; a bool is not.) -/
def isListV (v : PyVal) : Bool :=
  match v with
  | .list _ => true
  | _ => false

/-- The required-field loop of `validate_profile`: one missing-field message
per absent field, in declaration order (`field not in profile_data` can raise
for a non-container manifest value). -/
def requiredFieldErrors (d : PyVal) : List String → Except PyErr (List String)
  | [] => .ok []
  | f :: rest =>
    match pyContains d f with
    | .error e => .error e
    | .ok true => requiredFieldErrors d rest
    | .ok false =>
      (requiredFieldErrors d rest).map
        (fun es => ("Missing required field: " ++ f) :: es)

/-- The versionCode check of `validate_profile`: `int(...)` with `ValueError`
and `TypeError` caught and converted into the one schema error. -/
def versionCodeErrors (v : PyVal) : List String :=
  match pyIntCoerce v with
  | .ok _ => []
  | .error _ => ["versionCode must be an integer, got: " ++ pyStr v]

/-- The per-key loop over `['binPath', 'libPath', 'prefixPack']` inside the
type section (`key not in section_data` can raise on a non-container). -/
def sectionKeyErrors (sk : String) (sd : PyVal) : List String → Except PyErr (List String)
  | [] => .ok []
  | k :: rest =>
    match pyContains sd k with
    | .error e => .error e
    | .ok true => sectionKeyErrors sk sd rest
    | .ok false =>
      (sectionKeyErrors sk sd rest).map
        (fun es => ("Missing " ++ sk ++ "." ++ k) :: es)

/-- The type-conditional section check of `validate_profile`. -/
def sectionErrors (d : PyVal) (tval : PyVal) : Except PyErr (List String) :=
  if isWineProton tval then
    let sk := sectionKeyOf tval
    match pyContains d sk with
    | .error e => .error e
    | .ok false => .ok ["Missing required section: " ++ sk]
    | .ok true =>
      match pyGetItem d sk with
      | .error e => .error e
      | .ok sd => sectionKeyErrors sk sd ["binPath", "libPath", "prefixPack"]
  else .ok []

/-- `WineInfoValidator.construct_identifier` as called on raw profile values:
`type_name.lower()` then `version_name.startswith` raise on non-strings. -/
def constructIdentifierPy (t v : PyVal) : Except PyErr String :=
  match t with
  | .str ts =>
    match v with
    | .str vs => .ok (construct_identifier ts vs)
    | _ => .error (.attributeError "object has no attribute startswith")
  | _ => .error (.attributeError "object has no attribute lower")

/-- The versionName/identifier check of `validate_profile` (Wine/Proton
only). -/
def identifierErrors (d : PyVal) (tval : PyVal) : Except PyErr (List String) :=
  if isWineProton tval then
    match pyGet d "versionName" (.str "") with
    | .error e => .error e
    | .ok vnv =>
      match constructIdentifierPy tval vnv with
      | .error e => .error e
      | .ok ident =>
        if (validate_identifier ident).1 then .ok []
        else
          .ok ["versionName '" ++ pyStr vnv ++ "' (identifier: '" ++ ident ++
            "') does not match WineInfo pattern: " ++ patternStr]
  else .ok []

/-- `ContentProfileValidator.validate_profile`: required fields first (stop if
any is missing), then type membership, versionCode coercibility, files being
a list, the type-conditional section keys, and the constructed identifier,
all accumulated in that order. -/
def validate_profile (d : PyVal) : Except PyErr (Bool × List String) :=
  match requiredFieldErrors d REQUIRED_FIELDS with
  | .error e => .error e
  | .ok errs1 =>
    if ¬ errs1.isEmpty then .ok (false, errs1)
    else
      match pyGet d "type" .none with
      | .error e => .error e
      | .ok tval =>
        let typeErrs :=
          if typeInValidTypes tval then []
          else ["Invalid type '" ++ pyStr tval ++ "'. Must be one of: " ++
            String.intercalate ", " VALID_TYPES]
        match pyGet d "versionCode" .none with
        | .error e => .error e
        | .ok vcv =>
          let vcErrs := versionCodeErrors vcv
          match pyGet d "files" .none with
          | .error e => .error e
          | .ok fv =>
            let fileErrs :=
              if isListV fv then []
              else ["files must be an array, got: " ++ typeNameOf fv]
            match sectionErrors d tval with
            | .error e => .error e
            | .ok secErrs =>
              match identifierErrors d tval with
              | .error e => .error e
              | .ok identErrs =>
                let errors := typeErrs ++ vcErrs ++ fileErrs ++ secErrs ++ identErrs
                .ok (errors.isEmpty, errors)

/-! ## WCPValidator: the validation pipeline

The external world of one run — the archive file, the two `tar` subprocess
invocations, the extracted scratch directory, the JSON reads and the nested
tar — is a `World`; the mutable validator state (`self.errors`,
`self.warnings`, plus the `[k/6]` banners printed at the entry of each step)
is a `St`. A Python exception escaping a step is an `Except.error`. -/

/-- Outcome of one `subprocess.run(['tar', ...], timeout=60)` attempt.
`TimeoutExpired` is a `SubprocessError`, but is kept separate so the timeout
handling can be stated; `unexpected` is any exception outside the caught
`(SubprocessError, FileNotFoundError)` pair, which only the enclosing
`except Exception` sees. -/
inductive ExtractOutcome where
  | exitCode (code : Nat)
  | subprocErr
  | timeoutExpired
  | fileNotFound
  | unexpected (msg : String)
deriving DecidableEq, Repr

/-- The scratch-directory filesystem after extraction, as pure predicates over
paths relative to the scratch directory. -/
structure FS where
  fExists : String → Bool
  fIsDir : String → Bool
  fIsFile : String → Bool
  dirNonempty : String → Bool

/-- Result of opening and JSON-decoding a file. -/
inductive JsonRead where
  | ok (v : PyVal)
  | decodeErr (msg : String)
  | readErr (msg : String)

/-- Result of `tarfile.open(..., 'r:xz')` plus `getmembers()` on the nested
prefix pack: the member names, or the message of the raised exception. -/
inductive TarRead where
  | ok (members : List String)
  | err (msg : String)

/-- Everything outside the validator that one run observes. -/
structure World where
  wcpPath : String
  wcpExists : Bool
  zstd : ExtractOutcome
  xz : ExtractOutcome
  fs : FS
  profileJson : JsonRead
  wcpJson : JsonRead
  tarMembers : String → TarRead

/-- The validator's mutable state: `self.errors`, `self.warnings`, and the
list of `[k/6]` step banners printed so far. -/
structure St where
  errors : List String
  warnings : List String
  log : List Nat
deriving DecidableEq, Repr

/-- Append a fatal error. -/
def addError (st : St) (e : String) : St :=
  { st with errors := st.errors ++ [e] }

/-- Append an advisory warning. -/
def addWarning (st : St) (wmsg : String) : St :=
  { st with warnings := st.warnings ++ [wmsg] }

/-- Record the `[k/6]` banner printed at the entry of step `k`. -/
def logStage (st : St) (k : Nat) : St :=
  { st with log := st.log ++ [k] }

/-- Step 1, `WCPValidator._extract_wcp`: try `tar --zstd`, then `tar -xJf`;
a non-zero exit or a caught invocation failure (including `TimeoutExpired`)
falls through to the next attempt; success via xz records the codec warning;
both failing records the one error naming both codecs; any other exception is
caught by the enclosing handler. -/
def extractWcp (w : World) (st0 : St) : Bool × St :=
  let st := logStage st0 1
  match w.zstd with
  | .exitCode 0 => (true, st)
  | .unexpected e => (false, addError st ("Error extracting WCP: " ++ e))
  | _ =>
    match w.xz with
    | .exitCode 0 => (true, addWarning st "WCP uses xz compression, should use zstd")
    | .unexpected e => (false, addError st ("Error extracting WCP: " ++ e))
    | _ => (false, addError st "Failed to extract WCP archive with tar (tried zstd and xz)")

/-- Step 2, `WCPValidator._check_profile_exists`. -/
def checkProfileExists (w : World) (st0 : St) : Bool × St :=
  let st := logStage st0 2
  if w.fs.fExists "profile.json" then (true, st)
  else (false, addError st "profile.json not found at archive root")

/-- Step 3, `WCPValidator._validate_profile_structure`: decode failures are
converted to errors; a schema-invalid profile contributes its error list; on
success the step also interpolates `profile_data['type']`,
`['versionName']`, `['versionCode']` and the resolved identifier into its
progress output, which can raise for unchecked value shapes. -/
def validateProfileStructure (w : World) (st0 : St) : Except PyErr (Option PyVal × St) :=
  let st := logStage st0 3
  match w.profileJson with
  | .decodeErr e => .ok (Option.none, addError st ("Invalid JSON in profile.json: " ++ e))
  | .readErr e => .ok (Option.none, addError st ("Error reading profile.json: " ++ e))
  | .ok d =>
    match validate_profile d with
    | .error e => .error e
    | .ok (valid, errs) =>
      if valid then
        match pyGetItem d "type" with
        | .error e => .error e
        | .ok tv =>
          match pyGetItem d "versionName" with
          | .error e => .error e
          | .ok vn =>
            match pyGetItem d "versionCode" with
            | .error e => .error e
            | .ok _ =>
              match constructIdentifierPy tv vn with
              | .error e => .error e
              | .ok _ => .ok (some d, st)
      else .ok (Option.none, { st with errors := st.errors ++ errs })

/-- Step 4, `WCPValidator._validate_wine_proton_files`: for Wine/Proton
profiles resolve `binPath`, `libPath` and `prefixPack` against the scratch
directory and check directory/directory/regular-file kinds, recording one
error per failed check with no short-circuit; other types skip. -/
def validateWineProtonFiles (w : World) (d : PyVal) (st0 : St) : Except PyErr (Bool × St) :=
  let st := logStage st0 4
  match pyGetItem d "type" with
  | .error e => .error e
  | .ok tv =>
    if isWineProton tv then
      let sk := sectionKeyOf tv
      match pyGet d sk (.dict []) with
      | .error e => .error e
      | .ok sd =>
        match pyGet sd "binPath" .none with
        | .error e => .error e
        | .ok bpV =>
          match pyGet sd "libPath" .none with
          | .error e => .error e
          | .ok lpV =>
            match pyGet sd "prefixPack" .none with
            | .error e => .error e
            | .ok ppV =>
              match pathJoin bpV with
              | .error e => .error e
              | .ok bp =>
                let st :=
                  if ¬ (w.fs.fExists bp && w.fs.fIsDir bp) then
                    addError st (sk ++ ".binPath '" ++ bp ++ "' is not a directory")
                  else st
                match pathJoin lpV with
                | .error e => .error e
                | .ok lp =>
                  let st :=
                    if ¬ (w.fs.fExists lp && w.fs.fIsDir lp) then
                      addError st (sk ++ ".libPath '" ++ lp ++ "' is not a directory")
                    else st
                  match pathJoin ppV with
                  | .error e => .error e
                  | .ok pp =>
                    let st :=
                      if ¬ (w.fs.fExists pp && w.fs.fIsFile pp) then
                        addError st (sk ++ ".prefixPack '" ++ pp ++ "' is not a file")
                      else st
                    .ok (st.errors.isEmpty, st)
    else .ok (true, st)

/-- The `elif` filter of the member loop: a member path that does not have
the `.wine/` prefix, is not the root marker `.`, and is not `./`-rooted. -/
def missingPfxPred (m : String) : Bool :=
  !(pyStartsWith m ".wine/") && m != "." && !(pyStartsWith m "./")

/-- The collected non-conforming member paths (`missing_prefix`). -/
def missingPfxList (members : List String) : List String :=
  members.filter missingPfxPred

/-- The member scan of `WCPValidator._validate_prefix_pack` once the nested
archive is open: an empty archive is one warning; else collect whether any
member is `.wine/`-rooted and sample the paths that are neither the root
marker `.` nor `./`-rooted nor `.wine/`-rooted; no `.wine/`-rooted member
together with a nonempty sample is the one fatal error listing the first 5. -/
def prefixPackScan (members : List String) (st : St) : Bool × St :=
  if members.isEmpty then (true, addWarning st "prefixPack.txz is empty")
  else
    if ¬ members.any (fun m => pyStartsWith m ".wine/") ∧
        ¬ (missingPfxList members).isEmpty then
      (false, addError st
        ("prefixPack must extract to .wine/ subdirectory. Found paths without .wine/ prefix: "
          ++ pyReprStrList ((missingPfxList members).take 5)))
    else (true, st)

/-- Step 5, `WCPValidator._validate_prefix_pack`: for Wine/Proton profiles
re-resolve `prefixPack`; a missing file just fails (already reported by step
4); a failure opening or reading the nested archive is one error; otherwise
the member scan runs. -/
def validatePrefixPack (w : World) (d : PyVal) (st0 : St) : Except PyErr (Bool × St) :=
  let st := logStage st0 5
  match pyGetItem d "type" with
  | .error e => .error e
  | .ok tv =>
    if isWineProton tv then
      match pyGet d (sectionKeyOf tv) (.dict []) with
      | .error e => .error e
      | .ok sd =>
        match pyGet sd "prefixPack" .none with
        | .error e => .error e
        | .ok ppV =>
          match pathJoin ppV with
          | .error e => .error e
          | .ok pp =>
            if ¬ w.fs.fExists pp then .ok (false, st)
            else
              match w.tarMembers pp with
              | .err e => .ok (false, addError st ("Error reading prefixPack.txz: " ++ e))
              | .ok members => .ok (prefixPackScan members st)
    else .ok (true, st)

/-- The expected top-level directory loop of step 6: each absent directory is
one warning. -/
def expectedDirWarnings (w : World) (st : St) : St :=
  ["bin", "lib", "share"].foldl
    (fun acc dn =>
      if ¬ w.fs.fExists dn then addWarning acc ("Expected directory not found: " ++ dn ++ "/")
      else acc) st

/-- The optional `wcp.json` read of step 6: any failure parsing it (or
calling `.get` on a non-dict result) is caught and becomes one warning. -/
def wcpJsonStep (w : World) (st : St) : St :=
  if w.fs.fExists "wcp.json" then
    match w.wcpJson with
    | .ok (.dict _) => st
    | .ok _ => addWarning st "Could not parse wcp.json: object has no attribute get"
    | .decodeErr e => addWarning st ("Could not parse wcp.json: " ++ e)
    | .readErr e => addWarning st ("Could not parse wcp.json: " ++ e)
  else st

/-- The known-binary heuristic of step 6 under `bin/`. -/
def binHeuristic (w : World) (st : St) : St :=
  if w.fs.fExists "bin" then
    if (["wine", "wine64", "wineserver"].filter
        (fun b => w.fs.fExists ("bin/" ++ b))).isEmpty then
      addWarning st
        "No critical Wine binaries found in bin/ (expected at least one of: wine, wine64, wineserver)"
    else st
  else st

/-- The known-library-subdirectory heuristic of step 6 under `lib/`. -/
def libHeuristic (w : World) (st : St) : St :=
  if w.fs.fExists "lib" then
    if ¬ (["wine", "wine64"].any (fun sub =>
        w.fs.fExists ("lib/" ++ sub) && w.fs.fIsDir ("lib/" ++ sub)
          && w.fs.dirNonempty ("lib/" ++ sub))) then
      addWarning st
        "No Wine library directories found in lib/ (expected lib/wine/ or lib/wine64/)"
    else st
  else st

/-- Step 6, `WCPValidator._validate_directory_structure`: the root-required
file check (fatal), the expected top-level directory warnings, the optional
`wcp.json` read (parse failure is a warning), the known-binary heuristic
under `bin/` and the known-library-subdirectory heuristic under `lib/`. -/
def validateDirectoryStructure (w : World) (st0 : St) : Bool × St :=
  let st := logStage st0 6
  let st :=
    if ¬ w.fs.fExists "profile.json" then
      addError st "Missing required file at root: profile.json"
    else st
  let st := libHeuristic w (binHeuristic w (wcpJsonStep w (expectedDirWarnings w st)))
  (st.errors.isEmpty, st)

/-- `WCPValidator.validate`: the six steps in order, each short-circuiting
the rest when it reports failure, and the final verdict `len(errors) == 0`. -/
def runValidate (w : World) : Except PyErr (Bool × St) :=
  let st0 : St := ⟨[], [], []⟩
  if w.wcpExists then
    match extractWcp w st0 with
    | (false, st) => .ok (false, st)
    | (true, st) =>
      match checkProfileExists w st with
      | (false, st) => .ok (false, st)
      | (true, st) =>
        match validateProfileStructure w st with
        | .error e => .error e
        | .ok (Option.none, st) => .ok (false, st)
        | .ok (some d, st) =>
          match validateWineProtonFiles w d st with
          | .error e => .error e
          | .ok (false, st) => .ok (false, st)
          | .ok (true, st) =>
            match validatePrefixPack w d st with
            | .error e => .error e
            | .ok (false, st) => .ok (false, st)
            | .ok (true, st) =>
              match validateDirectoryStructure w st with
              | (false, st) => .ok (false, st)
              | (true, st) => .ok (st.errors.isEmpty, st)
  else .ok (false, addError st0 ("WCP file not found: " ++ w.wcpPath))

/-- `main`: `sys.exit(0 if success else 1)` after a completed validation. -/
def exitCode (w : World) : Except PyErr Nat :=
  match runValidate w with
  | .error e => .error e
  | .ok (b, _) => .ok (if b then 0 else 1)

/-- A prefix-pack member path that is neither the root marker `.` nor
`./`-rooted nor `.wine/`-rooted. -/
abbrev NonConforming (m : String) : Prop :=
  m ≠ "." ∧ pyStartsWith m "./" = false ∧ pyStartsWith m ".wine/" = false

/-- An extraction attempt outcome the extractor treats as a failed attempt
(non-zero exit, caught invocation failure, or timeout) rather than a crash. -/
def caughtFailure : ExtractOutcome → Bool
  | .exitCode c => c != 0
  | .subprocErr => true
  | .timeoutExpired => true
  | .fileNotFound => true
  | .unexpected _ => false

/-- A filesystem with nothing in it, for concrete runs. -/
def emptyFS : FS :=
  ⟨fun _ => false, fun _ => false, fun _ => false, fun _ => false⟩

/-- A concrete world for exercising the extraction step. -/
def extractWorld (z x : ExtractOutcome) : World :=
  ⟨"pkg.wcp", true, z, x, emptyFS, .decodeErr "err", .decodeErr "err", fun _ => .err "err"⟩

/-- A concrete schema-valid Wine manifest. -/
def wineManifest : List (String × PyVal) :=
  [("type", .str "Wine"), ("versionName", .str "9.0-x86"), ("versionCode", .int 1),
    ("description", .str "d"), ("files", .list []),
    ("wine", .dict [("binPath", .str "bin"), ("libPath", .str "lib"),
      ("prefixPack", .str "prefixPack.txz")])]

/-- A filesystem where every path exists with every kind. -/
def allFS : FS :=
  ⟨fun _ => true, fun _ => true, fun _ => true, fun _ => true⟩

/-- A filesystem holding only the manifest file. -/
def profOnlyFS : FS :=
  ⟨fun p => p == "profile.json", fun _ => false, fun _ => false, fun _ => false⟩

/-- A concrete world on which every validation step passes. -/
def fullWorld : World :=
  ⟨"pkg.wcp", true, .exitCode 0, .exitCode 0, allFS, .ok (.dict wineManifest),
    .ok (.dict []), fun _ => .ok [".wine/drive_c"]⟩

/-- A concrete world with a schema-valid manifest whose declared paths are
absent from the extracted tree. -/
def c2World : World :=
  ⟨"pkg.wcp", true, .exitCode 0, .exitCode 0, profOnlyFS, .ok (.dict wineManifest),
    .decodeErr "e", fun _ => .err "e"⟩

/-! ## Specification-side view of the identifier pattern

`PatternDecomp` states, straight from the pattern's text, that a string splits
as `family ++ "-" ++ version ++ hyphen? ++ subversion? ++ "-" ++ architecture`
with nothing before or after; `PatternDecompNl` is the language Python's `$`
actually accepts, which additionally allows one newline terminating the
string after the architecture. `GreedyDecompNl` pins the captures the
backtracking engine picks (the greedy, maximal version group). These are the
spec-side definitions the matcher `pyMatch` is compared against. -/

/-- A nonempty run of `[0-9\.]` characters. -/
def IsClassRun (t : List Char) : Prop :=
  t ≠ [] ∧ ∀ c ∈ t, classChar c = true

/-- What `$` may leave after the architecture: nothing, or one final
newline. -/
def IsNl (nl : List Char) : Prop :=
  nl = [] ∨ nl = ['\n']

/-- `s` decomposes according to the WineInfo pattern read with a hard
end-of-string anchor (no trailing newline allowance), with the given group
contents. -/
def PatternDecomp (s : String) (fam ver : List Char) (subv : Option (List Char))
    (arch : List Char) : Prop :=
  fam ∈ famAlts ∧ arch ∈ archAlts ∧ IsClassRun ver ∧
  (∀ t, subv = some t → IsClassRun t) ∧
  ∃ hyph, (hyph = ([] : List Char) ∨ hyph = ['-']) ∧
    s.data = fam ++ '-' :: (ver ++ hyph ++ subv.getD [] ++ '-' :: arch)

/-- `s` decomposes according to the WineInfo pattern under Python's `$`
semantics: the architecture may be followed by one newline that ends the
string. -/
def PatternDecompNl (s : String) (fam ver : List Char) (subv : Option (List Char))
    (arch : List Char) : Prop :=
  fam ∈ famAlts ∧ arch ∈ archAlts ∧ IsClassRun ver ∧
  (∀ t, subv = some t → IsClassRun t) ∧
  ∃ hyph nl, (hyph = ([] : List Char) ∨ hyph = ['-']) ∧ IsNl nl ∧
    s.data = fam ++ '-' :: (ver ++ hyph ++ subv.getD [] ++ '-' :: (arch ++ nl))

/-- `s` is in the language of the WineInfo pattern with a hard end anchor. -/
def MatchesPat (s : String) : Prop :=
  ∃ fam ver subv arch, PatternDecomp s fam ver subv arch

/-- `s` is in the language the WineInfo pattern accepts under Python's `$`
semantics (core language plus an optional single trailing newline). -/
def MatchesPatNl (s : String) : Prop :=
  ∃ fam ver subv arch, PatternDecompNl s fam ver subv arch

/-- `g` is the capture assignment of the backtracking engine: a decomposition
whose version group is the longest among all decompositions of `s`. -/
def GreedyDecompNl (s : String) (g : MGroups) : Prop :=
  PatternDecompNl s g.g1 g.g2 g.g3 g.g4 ∧
  ∀ fam ver subv arch, PatternDecompNl s fam ver subv arch →
    fam = g.g1 ∧ ver.length ≤ g.g2.length

/-! ## Helper lemmas: `findSome?`, `takeWhile`, `splitsDesc` -/

theorem findSome?_isSome_iff {α β : Type} (f : α → Option β) (l : List α) :
    (l.findSome? f).isSome ↔ ∃ a ∈ l, (f a).isSome := by
  induction l with
  | nil => simp [List.findSome?_nil]
  | cons x xs ih =>
    rw [List.findSome?_cons]
    cases hx : f x with
    | none => simp only [hx, Option.isSome_none, false_or, List.mem_cons]; simp only [ih, List.mem_cons]; constructor
              · rintro ⟨a, ha, h2⟩; exact ⟨a, Or.inr ha, h2⟩
              · rintro ⟨a, ha | ha, h2⟩
                · subst ha; simp [hx] at h2
                · exact ⟨a, ha, h2⟩
    | some b => simp [hx]

theorem findSome?_eq_some_mem {α β : Type} {f : α → Option β} {l : List α} {b : β}
    (h : l.findSome? f = some b) : ∃ a ∈ l, f a = some b := by
  induction l with
  | nil => simp [List.findSome?_nil] at h
  | cons x xs ih =>
    rw [List.findSome?_cons] at h
    cases hx : f x with
    | none =>
      rw [hx] at h
      obtain ⟨a, ha, hfa⟩ := ih h
      exact ⟨a, List.mem_cons_of_mem _ ha, hfa⟩
    | some c =>
      rw [hx] at h
      exact ⟨x, List.mem_cons_self _ _, hx.trans h⟩

theorem findSome?_cons_some {α β : Type} {f : α → Option β} {x : α} {l : List α} {b : β}
    (h : f x = some b) : (x :: l).findSome? f = some b := by
  rw [List.findSome?_cons, h]

theorem takeWhile_eq_take_len (p : Char → Bool) (cs : List Char) :
    cs.takeWhile p = cs.take (cs.takeWhile p).length :=
  List.prefix_iff_eq_take.mp (List.takeWhile_prefix p)

theorem prefix_takeWhile_of_all {p : Char → Bool} :
    ∀ {t cs : List Char}, t <+: cs → (∀ c ∈ t, p c = true) → t <+: cs.takeWhile p := by
  intro t
  induction t with
  | nil => intro cs _ _; exact List.nil_prefix
  | cons c t ih =>
    intro cs hpfx hall
    obtain ⟨u, hu⟩ := hpfx
    subst hu
    have hc : p c = true := hall c (List.mem_cons_self _ _)
    simp only [List.cons_append, List.takeWhile_cons, hc]
    exact (List.prefix_cons_inj c).mpr
      (ih (List.prefix_append t u) (fun x hx => hall x (List.mem_cons_of_mem _ hx)))

theorem takeWhile_append_all {p : Char → Bool} :
    ∀ {t u : List Char}, (∀ c ∈ t, p c = true) →
      (t ++ u).takeWhile p = t ++ u.takeWhile p := by
  intro t
  induction t with
  | nil => intro u _; simp
  | cons c t ih =>
    intro u hall
    have hc : p c = true := hall c (List.mem_cons_self _ _)
    simp only [List.cons_append, List.takeWhile_cons, hc, if_pos trivial, if_true]
    rw [ih (fun x hx => hall x (List.mem_cons_of_mem _ hx))]

theorem splitsDesc_mem_iff {p : Char → Bool} {cs cap rest : List Char} :
    (cap, rest) ∈ splitsDesc p cs ↔
      ∃ k, k < (cs.takeWhile p).length ∧ cap = cs.take (k + 1) ∧ rest = cs.drop (k + 1) := by
  simp only [splitsDesc, List.mem_map, List.mem_reverse, List.mem_range, Prod.mk.injEq]
  constructor
  · rintro ⟨k, hk, hcap, hrest⟩
    exact ⟨k, hk, hcap.symm, hrest.symm⟩
  · rintro ⟨k, hk, hcap, hrest⟩
    exact ⟨k, hk, hcap.symm, hrest.symm⟩

theorem splitsDesc_sound {p : Char → Bool} {cs cap rest : List Char}
    (h : (cap, rest) ∈ splitsDesc p cs) :
    cap ≠ [] ∧ (∀ c ∈ cap, p c = true) ∧ cs = cap ++ rest := by
  obtain ⟨k, hk, hcap, hrest⟩ := splitsDesc_mem_iff.mp h
  have hlen : k + 1 ≤ (cs.takeWhile p).length := hk
  have htkw : cs.takeWhile p = cs.take (cs.takeWhile p).length := takeWhile_eq_take_len p cs
  have hn : (cs.takeWhile p).length ≤ cs.length := by
    have h2 : cs.takeWhile p <+: cs := List.takeWhile_prefix p
    exact h2.length_le
  refine ⟨?_, ?_, ?_⟩
  · intro hnil
    rw [hcap] at hnil
    have : (cs.take (k + 1)).length = k + 1 := by
      rw [List.length_take]
      omega
    rw [hnil] at this
    simp at this
  · intro c hc
    rw [hcap] at hc
    have hsub : cs.take (k + 1) = (cs.takeWhile p).take (k + 1) := by
      conv_rhs => rw [htkw]
      rw [List.take_take]
      congr 1
      omega
    rw [hsub] at hc
    exact List.mem_takeWhile_imp (List.mem_of_mem_take hc)
  · rw [hcap, hrest]
    exact (List.take_append_drop (k + 1) cs).symm

theorem splitsDesc_complete {p : Char → Bool} {cs cap rest : List Char}
    (hne : cap ≠ []) (hall : ∀ c ∈ cap, p c = true) (heq : cs = cap ++ rest) :
    (cap, rest) ∈ splitsDesc p cs := by
  have hpfx : cap <+: cs := heq ▸ List.prefix_append cap rest
  have hlen : cap.length ≤ (cs.takeWhile p).length :=
    (prefix_takeWhile_of_all hpfx hall).length_le
  have hpos : 0 < cap.length := List.length_pos.mpr hne
  refine splitsDesc_mem_iff.mpr ⟨cap.length - 1, by omega, ?_, ?_⟩
  · have : cap.length - 1 + 1 = cap.length := by omega
    rw [this]
    exact List.prefix_iff_eq_take.mp hpfx
  · have h1 : cap.length - 1 + 1 = cap.length := by omega
    rw [h1, heq, List.drop_left]

theorem splitsDesc_head (p : Char → Bool) (cs : List Char)
    (h : 0 < (cs.takeWhile p).length) :
    splitsDesc p cs =
      (cs.take (cs.takeWhile p).length, cs.drop (cs.takeWhile p).length) ::
        ((List.range ((cs.takeWhile p).length - 1)).reverse).map
          (fun k => (cs.take (k + 1), cs.drop (k + 1))) := by
  unfold splitsDesc
  obtain ⟨n, hn⟩ : ∃ n, (cs.takeWhile p).length = n + 1 :=
    ⟨(cs.takeWhile p).length - 1, by omega⟩
  rw [hn, List.range_succ, List.reverse_append, List.reverse_singleton]
  simp

theorem matchArchEnd_iff {cs a : List Char} :
    matchArchEnd cs = some a ↔ a ∈ archAlts ∧ ∃ nl, IsNl nl ∧ cs = a ++ nl := by
  constructor
  · intro h
    obtain ⟨alt, halt, hf⟩ := findSome?_eq_some_mem h
    by_cases hcs : cs = alt
    · simp only [hcs, if_true, Option.some.injEq] at hf
      subst hf
      exact ⟨halt, [], Or.inl rfl, by simp [hcs]⟩
    · by_cases hcs2 : cs = alt ++ ['\n']
      · rw [if_neg hcs, if_pos hcs2] at hf
        injection hf with hf
        subst hf
        exact ⟨halt, ['\n'], Or.inr rfl, hcs2⟩
      · simp [hcs, hcs2] at hf
  · rintro ⟨ha, nl, hnl, rfl⟩
    rcases hnl with rfl | rfl <;> fin_cases ha <;> decide

theorem matchEnd_iff {cs a : List Char} :
    matchEnd cs = some a ↔
      a ∈ archAlts ∧ ∃ nl, IsNl nl ∧ cs = '-' :: (a ++ nl) := by
  cases cs with
  | nil =>
    simp only [matchEnd]
    constructor
    · intro h; cases h
    · rintro ⟨-, nl, -, h⟩; cases h
  | cons c rest =>
    by_cases hc : c = '-'
    · subst hc
      have h0 : matchEnd ('-' :: rest) = matchArchEnd rest := by simp [matchEnd]
      rw [h0, matchArchEnd_iff]
      constructor
      · rintro ⟨ha, nl, hnl, rfl⟩
        exact ⟨ha, nl, hnl, rfl⟩
      · rintro ⟨ha, nl, hnl, h⟩
        injection h with h1 h2
        exact ⟨ha, nl, hnl, h2⟩
    · have h0 : matchEnd (c :: rest) = Option.none := by simp [matchEnd, hc]
      rw [h0]
      constructor
      · intro h; cases h
      · rintro ⟨-, nl, -, h⟩
        injection h with h1 h2
        exact absurd h1 hc

theorem findSome?_eq_none_of {α β : Type} {f : α → Option β} {l : List α}
    (h : ∀ x ∈ l, f x = Option.none) : l.findSome? f = Option.none := by
  induction l with
  | nil => simp [List.findSome?_nil]
  | cons x xs ih =>
    rw [List.findSome?_cons, h x (List.mem_cons_self _ _)]
    exact ih (fun y hy => h y (List.mem_cons_of_mem _ hy))

theorem classChar_hyphen : classChar '-' = false := by decide

theorem matchG3End_arch_none {a nl : List Char} (ha : a ∈ archAlts)
    (hnl : IsNl nl) : matchG3End (a ++ nl) = Option.none := by
  rcases hnl with rfl | rfl <;> fin_cases ha <;> decide

theorem matchG3End_iff {cs : List Char} {g3 : Option (List Char)} {a : List Char} :
    matchG3End cs = some (g3, a) ↔
      ((∃ t nl, g3 = some t ∧ IsClassRun t ∧ a ∈ archAlts ∧ IsNl nl ∧
          cs = t ++ '-' :: (a ++ nl))
        ∨ (∃ nl, g3 = Option.none ∧ a ∈ archAlts ∧ IsNl nl ∧
          cs = '-' :: (a ++ nl))) := by
  constructor
  · intro h
    unfold matchG3End at h
    cases hfind : (splitsDesc classChar cs).findSome?
        (fun s => (matchEnd s.2).map (fun a => (some s.1, a))) with
    | some r =>
      rw [hfind] at h
      obtain rfl : r = (g3, a) := by injection h
      obtain ⟨s, hs, hf⟩ := findSome?_eq_some_mem hfind
      cases hme : matchEnd s.2 with
      | none => rw [hme] at hf; cases hf
      | some a' =>
        rw [hme] at hf
        injection hf with hf
        rw [Prod.mk.injEq] at hf
        obtain ⟨h1, h2⟩ := hf
        obtain ⟨hne, hall, hsplit⟩ := splitsDesc_sound hs
        obtain ⟨harch, nl, hnl, hrest⟩ := matchEnd_iff.mp hme
        left
        exact ⟨s.1, nl, h1.symm, ⟨hne, hall⟩, h2 ▸ harch, hnl,
          by rw [hsplit, hrest, h2]⟩
    | none =>
      rw [hfind] at h
      cases hme : matchEnd cs with
      | none => rw [hme] at h; cases h
      | some a' =>
        rw [hme] at h
        injection h with h
        rw [Prod.mk.injEq] at h
        obtain ⟨h1, h2⟩ := h
        obtain ⟨harch, nl, hnl, hrest⟩ := matchEnd_iff.mp hme
        right
        exact ⟨nl, h1.symm, h2 ▸ harch, hnl, by rw [hrest, h2]⟩
  · intro h
    rcases h with ⟨t, nl, rfl, ⟨tne, tall⟩, harch, hnl, rfl⟩ |
      ⟨nl, rfl, harch, hnl, rfl⟩
    · have htw : (t ++ '-' :: (a ++ nl)).takeWhile classChar = t := by
        rw [takeWhile_append_all tall]
        simp [List.takeWhile_cons, classChar_hyphen]
      have hn : 0 < ((t ++ '-' :: (a ++ nl)).takeWhile classChar).length := by
        rw [htw]; exact List.length_pos.mpr tne
      have hhead := splitsDesc_head classChar (t ++ '-' :: (a ++ nl)) hn
      rw [htw] at hhead
      have htk : (t ++ '-' :: (a ++ nl)).take t.length = t := List.take_left t _
      have hdr : (t ++ '-' :: (a ++ nl)).drop t.length = '-' :: (a ++ nl) :=
        List.drop_left t _
      rw [htk, hdr] at hhead
      have hme : matchEnd ('-' :: (a ++ nl)) = some a :=
        matchEnd_iff.mpr ⟨harch, nl, hnl, rfl⟩
      have hfind : (splitsDesc classChar (t ++ '-' :: (a ++ nl))).findSome?
          (fun s => (matchEnd s.2).map (fun a => (some s.1, a))) = some (some t, a) := by
        rw [hhead]
        exact findSome?_cons_some (by rw [hme]; rfl)
      unfold matchG3End
      rw [hfind]
    · have htw : (('-' : Char) :: (a ++ nl)).takeWhile classChar = [] := by
        simp [List.takeWhile_cons, classChar_hyphen]
      have hsplits : splitsDesc classChar ('-' :: (a ++ nl)) = [] := by
        unfold splitsDesc
        rw [htw]
        simp
      have hme : matchEnd ('-' :: (a ++ nl)) = some a :=
        matchEnd_iff.mpr ⟨harch, nl, hnl, rfl⟩
      have hfind : (splitsDesc classChar ('-' :: (a ++ nl))).findSome?
          (fun s => (matchEnd s.2).map (fun a => (some s.1, a))) = Option.none := by
        rw [hsplits]; exact List.findSome?_nil
      unfold matchG3End
      rw [hfind, hme]
      rfl

/-- The strings `\-?([0-9\.]+)?\-(arch)$` accepts, with the captures the
engine assigns; `$` may leave one final newline after the architecture. -/
def HyphG3Shape (cs : List Char) (g3 : Option (List Char)) (a : List Char) : Prop :=
  (∃ t nl, g3 = some t ∧ IsClassRun t ∧ a ∈ archAlts ∧ IsNl nl ∧
      (cs = '-' :: (t ++ '-' :: (a ++ nl)) ∨ cs = t ++ '-' :: (a ++ nl)))
  ∨ (∃ nl, g3 = Option.none ∧ a ∈ archAlts ∧ IsNl nl ∧
      (cs = '-' :: '-' :: (a ++ nl) ∨ cs = '-' :: (a ++ nl)))

theorem matchHyphG3End_cons_hyphen (rest : List Char) :
    matchHyphG3End ('-' :: rest) =
      (match matchG3End rest with
        | some r => some r
        | Option.none => matchG3End ('-' :: rest)) := by
  simp [matchHyphG3End]

theorem matchHyphG3End_cons_other {c : Char} (hc : ¬ c = '-') (rest : List Char) :
    matchHyphG3End (c :: rest) = matchG3End (c :: rest) := by
  simp [matchHyphG3End, hc]

theorem matchHyphG3End_sound {cs : List Char} {g3 : Option (List Char)} {a : List Char}
    (h : matchHyphG3End cs = some (g3, a)) : HyphG3Shape cs g3 a := by
  cases cs with
  | nil =>
    have h0 : matchHyphG3End [] = Option.none := by decide
    rw [h0] at h
    cases h
  | cons c rest =>
    by_cases hc : c = '-'
    · subst hc
      rw [matchHyphG3End_cons_hyphen] at h
      cases hinner : matchG3End rest with
      | some r =>
        rw [hinner] at h
        obtain rfl : r = (g3, a) := by injection h
        rcases matchG3End_iff.mp hinner with ⟨t, nl, h1, h2, h3, hnl, h4⟩ |
          ⟨nl, h1, h2, hnl, h3⟩
        · exact Or.inl ⟨t, nl, h1, h2, h3, hnl, Or.inl (by rw [h4])⟩
        · exact Or.inr ⟨nl, h1, h2, hnl, Or.inl (by rw [h3])⟩
      | none =>
        rw [hinner] at h
        rcases matchG3End_iff.mp h with ⟨t, nl, h1, ⟨tne, tall⟩, h3, hnl, h4⟩ |
          ⟨nl, h1, h2, hnl, h3⟩
        · obtain ⟨t0, t', rfl⟩ := List.exists_cons_of_ne_nil tne
          rw [List.cons_append] at h4
          injection h4 with h5 h6
          have := tall t0 (List.mem_cons_self _ _)
          rw [← h5, classChar_hyphen] at this
          cases this
        · exact Or.inr ⟨nl, h1, h2, hnl, Or.inr h3⟩
    · rw [matchHyphG3End_cons_other hc] at h
      rcases matchG3End_iff.mp h with ⟨t, nl, h1, h2, h3, hnl, h4⟩ |
        ⟨nl, h1, h2, hnl, h3⟩
      · exact Or.inl ⟨t, nl, h1, h2, h3, hnl, Or.inr h4⟩
      · injection h3 with h5 h6
        exact absurd h5 hc

theorem matchHyphG3End_complete {cs : List Char} {g3 : Option (List Char)} {a : List Char}
    (h : HyphG3Shape cs g3 a) : matchHyphG3End cs = some (g3, a) := by
  rcases h with ⟨t, nl, rfl, ht, ha, hnl, hcs | hcs⟩ | ⟨nl, rfl, ha, hnl, hcs | hcs⟩
  · subst hcs
    rw [matchHyphG3End_cons_hyphen]
    have hinner : matchG3End (t ++ '-' :: (a ++ nl)) = some (some t, a) :=
      matchG3End_iff.mpr (Or.inl ⟨t, nl, rfl, ht, ha, hnl, rfl⟩)
    rw [hinner]
  · subst hcs
    obtain ⟨t0, t', rfl⟩ := List.exists_cons_of_ne_nil ht.1
    have ht0 : ¬ t0 = '-' := by
      intro h0
      have := ht.2 t0 (List.mem_cons_self _ _)
      rw [h0, classChar_hyphen] at this
      cases this
    rw [List.cons_append, matchHyphG3End_cons_other ht0, ← List.cons_append]
    exact matchG3End_iff.mpr (Or.inl ⟨t0 :: t', nl, rfl, ht, ha, hnl, rfl⟩)
  · subst hcs
    rw [matchHyphG3End_cons_hyphen]
    have hinner : matchG3End ('-' :: (a ++ nl)) = some (Option.none, a) :=
      matchG3End_iff.mpr (Or.inr ⟨nl, rfl, ha, hnl, rfl⟩)
    rw [hinner]
  · subst hcs
    rw [matchHyphG3End_cons_hyphen]
    rw [matchG3End_arch_none ha hnl]
    exact matchG3End_iff.mpr (Or.inr ⟨nl, rfl, ha, hnl, rfl⟩)

theorem matchHyphG3End_iff {cs : List Char} {g3 : Option (List Char)} {a : List Char} :
    matchHyphG3End cs = some (g3, a) ↔ HyphG3Shape cs g3 a :=
  ⟨matchHyphG3End_sound, matchHyphG3End_complete⟩

theorem class_split :
    ∀ (mid t T a : List Char), (∀ c ∈ mid, classChar c = true) →
      (∀ c ∈ t, classChar c = true) → mid ++ T = t ++ '-' :: a →
      ∃ t2, t = mid ++ t2 ∧ T = t2 ++ '-' :: a := by
  intro mid
  induction mid with
  | nil =>
    intro t T a _ _ heq
    exact ⟨t, rfl, by simpa using heq⟩
  | cons m mid ih =>
    intro t T a hmid htall heq
    cases t with
    | nil =>
      rw [List.nil_append, List.cons_append] at heq
      injection heq with h1 h2
      have := hmid m (List.mem_cons_self _ _)
      rw [h1, classChar_hyphen] at this
      cases this
    | cons t0 t' =>
      rw [List.cons_append, List.cons_append] at heq
      injection heq with h1 h2
      obtain ⟨t2, h3, h4⟩ := ih t' T a
        (fun c hc => hmid c (List.mem_cons_of_mem _ hc))
        (fun c hc => htall c (List.mem_cons_of_mem _ hc)) h2
      exact ⟨t2, by rw [List.cons_append, h1, h3], h4⟩

theorem matchHyphG3End_mono {mid T : List Char} {g3 : Option (List Char)} {a : List Char}
    (hmid : ∀ c ∈ mid, classChar c = true)
    (h : matchHyphG3End (mid ++ T) = some (g3, a)) :
    (matchHyphG3End T).isSome := by
  cases mid with
  | nil => rw [List.nil_append] at h; rw [h]; rfl
  | cons m mid' =>
    have hm : classChar m = true := hmid m (List.mem_cons_self _ _)
    have hmne : ¬ m = '-' := by
      intro h0; rw [h0, classChar_hyphen] at hm; cases hm
    rcases matchHyphG3End_sound h with ⟨t, nl, -, ⟨tne, tall⟩, ha, hnl, hcs | hcs⟩ |
      ⟨nl, -, -, -, hcs | hcs⟩
    · rw [List.cons_append] at hcs
      injection hcs with h1 h2
      exact absurd h1 hmne
    · obtain ⟨t2, h3, h4⟩ := class_split (m :: mid') t T (a ++ nl) hmid tall hcs
      have ht2 : ∀ c ∈ t2, classChar c = true := by
        intro c hc
        exact tall c (h3 ▸ List.mem_append_right _ hc)
      cases ht2e : t2 with
      | nil =>
        rw [ht2e, List.nil_append] at h4
        rw [matchHyphG3End_complete (Or.inr ⟨nl, rfl, ha, hnl, Or.inr h4⟩)]
        rfl
      | cons u u' =>
        rw [ht2e] at h4
        rw [matchHyphG3End_complete (Or.inl ⟨u :: u', nl, rfl,
          ⟨by simp, by rw [← ht2e]; exact ht2⟩, ha, hnl, Or.inr h4⟩)]
        rfl
    · rw [List.cons_append] at hcs
      injection hcs with h1 h2
      exact absurd h1 hmne
    · rw [List.cons_append] at hcs
      injection hcs with h1 h2
      exact absurd h1 hmne

theorem matchTail_sound {cs v : List Char} {g3 : Option (List Char)} {a : List Char}
    (h : matchTail cs = some (v, g3, a)) :
    v = cs.takeWhile classChar ∧ v ≠ [] ∧
      matchHyphG3End (cs.drop v.length) = some (g3, a) := by
  obtain ⟨s, hs, hf⟩ := findSome?_eq_some_mem h
  cases hmh : matchHyphG3End s.2 with
  | none => rw [hmh] at hf; cases hf
  | some r =>
    rw [hmh] at hf
    injection hf with hf
    obtain ⟨k, hk, hcap, hrest⟩ := splitsDesc_mem_iff.mp hs
    set n := (cs.takeWhile classChar).length with hn
    have hnpos : 0 < n := by omega
    have hcs_decomp : cs.takeWhile classChar ++ cs.dropWhile classChar = cs :=
      List.takeWhile_append_dropWhile classChar cs
    have hdropn : cs.drop n = cs.dropWhile classChar := by
      conv_lhs => rw [← hcs_decomp]
      rw [List.drop_append_eq_append_drop]
      have h1 : n - (cs.takeWhile classChar).length = 0 := by omega
      rw [h1, List.drop_zero]
      have h0 : (cs.takeWhile classChar).drop n = [] := by
        apply List.drop_eq_nil_of_le
        omega
      rw [h0, List.nil_append]
    have hmid : cs.drop (k + 1) = (cs.takeWhile classChar).drop (k + 1) ++ cs.drop n := by
      conv_lhs => rw [← hcs_decomp]
      rw [List.drop_append_eq_append_drop]
      have h1 : k + 1 - (cs.takeWhile classChar).length = 0 := by omega
      rw [h1, List.drop_zero, hdropn]
    have hmidall : ∀ c ∈ (cs.takeWhile classChar).drop (k + 1), classChar c = true :=
      fun c hc => List.mem_takeWhile_imp (List.mem_of_mem_drop hc)
    have hsucc : (matchHyphG3End (cs.drop n)).isSome := by
      apply matchHyphG3End_mono hmidall
      rw [← hmid, ← hrest, hmh]
    obtain ⟨r', hr'⟩ := Option.isSome_iff_exists.mp hsucc
    obtain ⟨rg, ra⟩ := r'
    have hhead := splitsDesc_head classChar cs (by omega)
    rw [← hn] at hhead
    have hmt : matchTail cs = some (cs.take n, rg, ra) := by
      unfold matchTail
      rw [hhead, List.findSome?_cons, hr']
      rfl
    rw [h] at hmt
    injection hmt with hmt
    rw [Prod.mk.injEq] at hmt
    obtain ⟨hv2, hrest2⟩ := hmt
    rw [Prod.mk.injEq] at hrest2
    obtain ⟨hg, ha⟩ := hrest2
    have htake : cs.take n = cs.takeWhile classChar := (takeWhile_eq_take_len classChar cs).symm
    have hnle : n ≤ cs.length := by
      rw [hn]; exact (List.takeWhile_prefix classChar).length_le
    refine ⟨hv2.trans htake, ?_, ?_⟩
    · intro h0
      have h1 : List.takeWhile classChar cs = [] := by rw [← htake, ← hv2, h0]
      rw [h1] at hn
      simp at hn
      omega
    · have hvlen : v.length = n := by
        rw [hv2, List.length_take]
        omega
      rw [hvlen, hr', hg, ha]

theorem matchTail_isSome_of {cs cap rest : List Char}
    (hmem : (cap, rest) ∈ splitsDesc classChar cs)
    (h : (matchHyphG3End rest).isSome) : (matchTail cs).isSome := by
  apply (findSome?_isSome_iff _ _).mpr
  refine ⟨(cap, rest), hmem, ?_⟩
  obtain ⟨r, hr⟩ := Option.isSome_iff_exists.mp h
  simp [hr]

theorem stripPfx_sound :
    ∀ {p cs r : List Char}, stripPfx p cs = some r → cs = p ++ r := by
  intro p
  induction p with
  | nil =>
    intro cs r h
    simp [stripPfx] at h
    rw [h, List.nil_append]
  | cons pc ps ih =>
    intro cs r h
    cases cs with
    | nil => simp [stripPfx] at h
    | cons c cs' =>
      by_cases hc : c = pc
      · subst hc
        simp only [stripPfx, if_pos rfl] at h
        rw [List.cons_append, ih h]
      · simp [stripPfx, hc] at h

theorem stripPfx_complete : ∀ (p r : List Char), stripPfx p (p ++ r) = some r := by
  intro p
  induction p with
  | nil => intro r; simp [stripPfx]
  | cons pc ps ih =>
    intro r
    rw [List.cons_append]
    simp only [stripPfx, if_pos rfl]
    exact ih r

theorem famAlts_append_inj {fam fam' u u' : List Char}
    (h1 : fam ∈ famAlts) (h2 : fam' ∈ famAlts) (heq : fam ++ u = fam' ++ u') :
    fam = fam' := by
  have hw : "wine".data = ['w', 'i', 'n', 'e'] := rfl
  have hp : "proton".data = ['p', 'r', 'o', 't', 'o', 'n'] := rfl
  have hP : "Proton".data = ['P', 'r', 'o', 't', 'o', 'n'] := rfl
  fin_cases h1 <;> fin_cases h2 <;>
    first
      | rfl
      | (rw [hw, hp] at heq ⊢; simp at heq)
      | (rw [hw, hP] at heq ⊢; simp at heq)
      | (rw [hp, hP] at heq ⊢; simp at heq)
      | (rw [hp, hw] at heq ⊢; simp at heq)
      | (rw [hP, hw] at heq ⊢; simp at heq)
      | (rw [hP, hp] at heq ⊢; simp at heq)

theorem pyMatch_sound {s : String} {g : MGroups} (h : pyMatch s = some g) :
    g.g1 ∈ famAlts ∧ ∃ rest, s.data = g.g1 ++ '-' :: rest ∧
      matchTail rest = some (g.g2, g.g3, g.g4) := by
  obtain ⟨fam, hfam, hf⟩ := findSome?_eq_some_mem h
  cases hsp : stripPfx (fam ++ ['-']) s.data with
  | none => rw [hsp] at hf; cases hf
  | some rest =>
    rw [hsp] at hf
    dsimp only at hf
    cases hmt : matchTail rest with
    | none => rw [hmt] at hf; cases hf
    | some r =>
      rw [hmt] at hf
      injection hf with hf
      subst hf
      refine ⟨hfam, rest, ?_, ?_⟩
      · have := stripPfx_sound hsp
        rw [this, List.append_assoc]
        rfl
      · rw [hmt]

theorem pyMatch_isSome_of {s : String} {fam rest : List Char} (hfam : fam ∈ famAlts)
    (hdata : s.data = fam ++ '-' :: rest) (h : (matchTail rest).isSome) :
    (pyMatch s).isSome := by
  apply (findSome?_isSome_iff _ _).mpr
  refine ⟨fam, hfam, ?_⟩
  have hsp : stripPfx (fam ++ ['-']) s.data = some rest := by
    rw [hdata]
    have h2 : fam ++ '-' :: rest = (fam ++ ['-']) ++ rest := by simp
    rw [h2]
    exact stripPfx_complete _ _
  rw [hsp]
  dsimp only
  obtain ⟨r, hr⟩ := Option.isSome_iff_exists.mp h
  rw [hr]
  rfl

theorem pyMatch_greedy {s : String} {g : MGroups} (h : pyMatch s = some g) :
    GreedyDecompNl s g := by
  obtain ⟨hfam, rest, hdata, hmt⟩ := pyMatch_sound h
  obtain ⟨hv, hvne, hmh⟩ := matchTail_sound hmt
  have hg2all : ∀ c ∈ g.g2, classChar c = true := by
    intro c hc
    rw [hv] at hc
    exact List.mem_takeWhile_imp hc
  have hlen : (rest.takeWhile classChar).length = g.g2.length := by rw [← hv]
  have htake : g.g2 = rest.take g.g2.length := by
    rw [hv]
    exact takeWhile_eq_take_len classChar rest
  have hrest_decomp : rest = g.g2 ++ rest.drop g.g2.length := by
    conv_lhs => rw [← List.take_append_drop g.g2.length rest]
    rw [← htake]
  have hmax : ∀ fam ver subv arch, PatternDecompNl s fam ver subv arch →
      fam = g.g1 ∧ ver.length ≤ g.g2.length := by
    intro fam ver subv arch hdec
    obtain ⟨hfam', harch', hver, hsubv, hyph, nl, hhyph, hnl, heq⟩ := hdec
    have hcomb : fam ++ '-' :: (ver ++ hyph ++ subv.getD [] ++ '-' :: (arch ++ nl)) =
        g.g1 ++ '-' :: rest := heq.symm.trans hdata
    have hfamEq : fam = g.g1 := famAlts_append_inj hfam' hfam hcomb
    refine ⟨hfamEq, ?_⟩
    rw [hfamEq] at hcomb
    have hX : ver ++ hyph ++ subv.getD [] ++ '-' :: (arch ++ nl) = rest := by
      have := List.append_cancel_left hcomb
      injection this
    have hpfx : ver <+: rest := by
      rw [← hX]
      have h1 : ver ++ hyph ++ subv.getD [] ++ '-' :: (arch ++ nl) =
          ver ++ (hyph ++ subv.getD [] ++ '-' :: (arch ++ nl)) := by
        simp [List.append_assoc]
      rw [h1]
      exact List.prefix_append _ _
    have := (prefix_takeWhile_of_all hpfx hver.2).length_le
    omega
  rcases matchHyphG3End_sound hmh with ⟨t, nl, hg3, ht, ha, hnl, hcs | hcs⟩ |
    ⟨nl, hg3, ha, hnl, hcs | hcs⟩
  · refine ⟨⟨hfam, ha, ⟨hvne, hg2all⟩, ?_, ['-'], nl, Or.inr rfl, hnl, ?_⟩, hmax⟩
    · intro t' ht'
      rw [hg3] at ht'
      injection ht' with ht'
      exact ht' ▸ ht
    · rw [hdata, hrest_decomp, hcs, hg3]
      simp [List.append_assoc]
  · refine ⟨⟨hfam, ha, ⟨hvne, hg2all⟩, ?_, [], nl, Or.inl rfl, hnl, ?_⟩, hmax⟩
    · intro t' ht'
      rw [hg3] at ht'
      injection ht' with ht'
      exact ht' ▸ ht
    · rw [hdata, hrest_decomp, hcs, hg3]
      simp [List.append_assoc]
  · refine ⟨⟨hfam, ha, ⟨hvne, hg2all⟩, ?_, ['-'], nl, Or.inr rfl, hnl, ?_⟩, hmax⟩
    · intro t' ht'
      rw [hg3] at ht'
      cases ht'
    · rw [hdata, hrest_decomp, hcs, hg3]
      simp [List.append_assoc]
  · refine ⟨⟨hfam, ha, ⟨hvne, hg2all⟩, ?_, [], nl, Or.inl rfl, hnl, ?_⟩, hmax⟩
    · intro t' ht'
      rw [hg3] at ht'
      cases ht'
    · rw [hdata, hrest_decomp, hcs, hg3]
      simp [List.append_assoc]

theorem pyMatch_isSome_of_matches {s : String} (hm : MatchesPatNl s) :
    (pyMatch s).isSome := by
  obtain ⟨fam, ver, subv, arch, hfam, harch, hver, hsubv, hyph, nl, hhyph, hnl, heq⟩ := hm
  have hsplit : (ver, hyph ++ subv.getD [] ++ '-' :: (arch ++ nl)) ∈
      splitsDesc classChar (ver ++ (hyph ++ subv.getD [] ++ '-' :: (arch ++ nl))) :=
    splitsDesc_complete hver.1 hver.2 rfl
  have hshape : (matchHyphG3End (hyph ++ subv.getD [] ++ '-' :: (arch ++ nl))).isSome := by
    rcases hhyph with rfl | rfl
    · cases subv with
      | none =>
        rw [matchHyphG3End_complete (Or.inr ⟨nl, rfl, harch, hnl, Or.inr (by simp)⟩)]
        rfl
      | some t =>
        rw [matchHyphG3End_complete
          (Or.inl ⟨t, nl, rfl, hsubv t rfl, harch, hnl, Or.inr (by simp)⟩)]
        rfl
    · cases subv with
      | none =>
        rw [matchHyphG3End_complete (Or.inr ⟨nl, rfl, harch, hnl, Or.inl (by simp)⟩)]
        rfl
      | some t =>
        rw [matchHyphG3End_complete
          (Or.inl ⟨t, nl, rfl, hsubv t rfl, harch, hnl, Or.inl (by simp)⟩)]
        rfl
  have htail := matchTail_isSome_of hsplit hshape
  apply pyMatch_isSome_of hfam ?_ htail
  rw [heq]
  simp [List.append_assoc]

/-! ## Claim theorems: identifier grammar -/

/-- C5, amended: the language `validate_identifier` accepts is the pattern's
core language extended by Python's `$` semantics, which also matches just
before a single newline ending the string. Every string in that language is
accepted with parsed fields equal to the captured groups of the greedy
backtracking match (family lower-cased, subversion `None` exactly when the
optional group did not participate, an optional final newline left
uncaptured); every string outside it — extra characters before the core, or
after it other than one final newline — is rejected with no parsed fields.
The original claim's blanket rejection of trailing extra characters is
refuted by `"wine-8.0-x86\n"`. -/
theorem claim_C5 (s : String) :
    (MatchesPatNl s → ∃ g : MGroups, pyMatch s = some g ∧ GreedyDecompNl s g ∧
      validate_identifier s = (true, some ⟨pyLower (String.mk g.g1), String.mk g.g2,
        g.g3.map String.mk, String.mk g.g4⟩)) ∧
    (¬ MatchesPatNl s → validate_identifier s = (false, Option.none)) := by
  constructor
  · intro hm
    obtain ⟨g, hg⟩ := Option.isSome_iff_exists.mp (pyMatch_isSome_of_matches hm)
    refine ⟨g, hg, pyMatch_greedy hg, ?_⟩
    unfold validate_identifier
    rw [hg]
  · intro hnm
    cases hpm : pyMatch s with
    | none =>
      unfold validate_identifier
      rw [hpm]
    | some g =>
      exact absurd ⟨g.g1, g.g2, g.g3, g.g4, (pyMatch_greedy hpm).1⟩ hnm

/-- Counterexample to C5 as stated: `"wine-8.0-x86\n"` carries an extra
character after an otherwise-matching core — it is not in the hard-anchored
core language — yet `validate_identifier` accepts it with parsed fields,
because `$` in `re` also matches just before a trailing newline. -/
theorem claim_C5_cex :
    ¬ MatchesPat "wine-8.0-x86\n" ∧
    validate_identifier "wine-8.0-x86\n" =
      (true, some ⟨"wine", "8.0", Option.none, "x86"⟩) := by
  constructor
  · rintro ⟨fam, ver, subv, arch, hfam, harch, hver, hsubv, hyph, hhyph, heq⟩
    have hsuf : arch <:+ "wine-8.0-x86\n".data := by
      refine ⟨fam ++ '-' :: (ver ++ hyph ++ subv.getD [] ++ ['-']), ?_⟩
      rw [heq]
      simp [List.append_assoc]
    fin_cases harch
    · exact absurd hsuf (by decide)
    · exact absurd hsuf (by decide)
    · exact absurd hsuf (by decide)
  · rfl

/-- Witness for C5: both branches applied at concrete identifiers, including
one that is accepted only through the trailing-newline allowance of `$`. -/
theorem claim_C5_witness :
    MatchesPatNl "proton-8.0-21-x86_64" ∧ MatchesPatNl "wine-9.0-x86\n" ∧
    ¬ MatchesPatNl "abc" ∧
    (∃ g : MGroups, pyMatch "proton-8.0-21-x86_64" = some g ∧
      GreedyDecompNl "proton-8.0-21-x86_64" g ∧
      validate_identifier "proton-8.0-21-x86_64" = (true, some ⟨pyLower (String.mk g.g1),
        String.mk g.g2, g.g3.map String.mk, String.mk g.g4⟩)) ∧
    (∃ g : MGroups, pyMatch "wine-9.0-x86\n" = some g ∧
      GreedyDecompNl "wine-9.0-x86\n" g ∧
      validate_identifier "wine-9.0-x86\n" = (true, some ⟨pyLower (String.mk g.g1),
        String.mk g.g2, g.g3.map String.mk, String.mk g.g4⟩)) ∧
    validate_identifier "abc" = (false, Option.none) := by
  have h1 : MatchesPatNl "proton-8.0-21-x86_64" := by
    refine ⟨"proton".data, "8.0".data, some "21".data, "x86_64".data, ?_, ?_, ?_, ?_,
      ['-'], [], Or.inr rfl, Or.inl rfl, ?_⟩
    · decide
    · decide
    · exact ⟨by decide, by decide⟩
    · intro t ht
      injection ht with h
      exact h ▸ ⟨by decide, by decide⟩
    · decide
  have h1n : MatchesPatNl "wine-9.0-x86\n" := by
    refine ⟨"wine".data, "9.0".data, Option.none, "x86".data, ?_, ?_, ?_, ?_,
      [], ['\n'], Or.inl rfl, Or.inr rfl, ?_⟩
    · decide
    · decide
    · exact ⟨by decide, by decide⟩
    · intro t ht
      cases ht
    · decide
  have h2 : ¬ MatchesPatNl "abc" := by
    rintro ⟨fam, ver, subv, arch, hfam, harch, hver, hsubv, hyph, nl, hhyph, hnl, heq⟩
    have hlen := congrArg List.length heq
    rw [show ("abc".data).length = 3 from rfl] at hlen
    simp [List.length_append, List.length_cons] at hlen
    have hfl : 4 ≤ fam.length := by fin_cases hfam <;> decide
    have hal : 3 ≤ arch.length := by fin_cases harch <;> decide
    have hvl : 1 ≤ ver.length := List.length_pos.mpr hver.1
    omega
  exact ⟨h1, h1n, h2, (claim_C5 _).1 h1, (claim_C5 _).1 h1n, (claim_C5 _).2 h2⟩

/-- C6: `construct_identifier` is idempotent in its second argument: feeding
its own output back as the version name returns it unchanged. -/
theorem claim_C6 (t v : String) :
    construct_identifier t (construct_identifier t v) = construct_identifier t v := by
  unfold construct_identifier
  by_cases h : pyStartsWith v (pyLower t ++ "-")
  · rw [if_pos h, if_pos h]
  · rw [if_neg h]
    have hpre : pyStartsWith (pyLower t ++ "-" ++ v) (pyLower t ++ "-") = true := by
      unfold pyStartsWith
      apply List.isPrefixOf_iff_prefix.mpr
      rw [String.data_append]
      exact List.prefix_append _ _
    rw [if_pos hpre]

/-! ## Claim theorems: prefix-pack scan and extraction -/

theorem prefixPackScan_nil (st : St) :
    prefixPackScan [] st = (true, addWarning st "prefixPack.txz is empty") := by
  simp [prefixPackScan]

theorem prefixPackScan_error_case {members : List String} (st : St)
    (hall : ∀ m ∈ members, pyStartsWith m ".wine/" = false)
    (hex : ∃ m ∈ members, NonConforming m) :
    prefixPackScan members st = (false, addError st
      ("prefixPack must extract to .wine/ subdirectory. Found paths without .wine/ prefix: "
        ++ pyReprStrList ((missingPfxList members).take 5))) := by
  obtain ⟨m, hm, hnc⟩ := hex
  have hne : members ≠ [] := by
    intro h0
    rw [h0] at hm
    cases hm
  have hempty : members.isEmpty = false := by
    cases members with
    | nil => exact absurd rfl hne
    | cons a l => rfl
  have hany : members.any (fun m => pyStartsWith m ".wine/") = false := by
    rw [List.any_eq_false]
    intro x hx
    simp [hall x hx]
  have hmem : m ∈ missingPfxList members := by
    rw [missingPfxList, List.mem_filter]
    refine ⟨hm, ?_⟩
    rw [missingPfxPred, hnc.2.1, hnc.2.2]
    simp [hnc.1]
  have hfilter : (missingPfxList members).isEmpty = false := by
    cases hl : missingPfxList members with
    | nil => rw [hl] at hmem; cases hmem
    | cons a l => rfl
  rw [prefixPackScan, if_neg (by simp [hempty]), if_pos (by simp [hany, hfilter])]

theorem prefixPackScan_allWine_case {members : List String} (st : St)
    (hne : members ≠ []) (hall : ∀ m ∈ members, pyStartsWith m ".wine/" = true) :
    prefixPackScan members st = (true, st) := by
  have hempty : members.isEmpty = false := by
    cases members with
    | nil => exact absurd rfl hne
    | cons a l => rfl
  have hany : members.any (fun m => pyStartsWith m ".wine/") = true := by
    rw [List.any_eq_true]
    cases members with
    | nil => exact absurd rfl hne
    | cons a l => exact ⟨a, List.mem_cons_self _ _, hall a (List.mem_cons_self _ _)⟩
  rw [prefixPackScan, if_neg (by simp [hempty]), if_neg (by simp [hany])]

/-- C3: an opened prefix archive with zero members records exactly one warning
and zero errors; one with no `.wine/`-rooted member and at least one
non-conforming member records exactly one fatal error listing at most 5 sample
offending paths; a nonempty one whose members are all `.wine/`-rooted records
zero errors and zero related warnings. -/
theorem claim_C3 (members : List String) (st : St) :
    (members = [] →
      prefixPackScan members st = (true, addWarning st "prefixPack.txz is empty")) ∧
    ((∀ m ∈ members, pyStartsWith m ".wine/" = false) →
      (∃ m ∈ members, NonConforming m) →
      prefixPackScan members st = (false, addError st
          ("prefixPack must extract to .wine/ subdirectory. Found paths without .wine/ prefix: "
            ++ pyReprStrList ((missingPfxList members).take 5)))
        ∧ ((missingPfxList members).take 5).length ≤ 5) ∧
    (members ≠ [] → (∀ m ∈ members, pyStartsWith m ".wine/" = true) →
      prefixPackScan members st = (true, st)) := by
  refine ⟨?_, ?_, ?_⟩
  · rintro rfl
    exact prefixPackScan_nil st
  · intro hall hex
    refine ⟨prefixPackScan_error_case st hall hex, ?_⟩
    rw [List.length_take]
    omega
  · exact fun hne hall => prefixPackScan_allWine_case st hne hall

/-- Witness for C3: the three cases at concrete member lists. -/
theorem claim_C3_witness :
    prefixPackScan [] ⟨[], [], []⟩ =
      (true, addWarning ⟨[], [], []⟩ "prefixPack.txz is empty") ∧
    (prefixPackScan ["oops", "other"] ⟨[], [], []⟩ = (false, addError ⟨[], [], []⟩
        ("prefixPack must extract to .wine/ subdirectory. Found paths without .wine/ prefix: "
          ++ pyReprStrList ((missingPfxList ["oops", "other"]).take 5)))
      ∧ ((missingPfxList ["oops", "other"]).take 5).length ≤ 5) ∧
    prefixPackScan [".wine/drive_c"] ⟨[], [], []⟩ = (true, ⟨[], [], []⟩) := by
  refine ⟨(claim_C3 [] _).1 rfl, (claim_C3 ["oops", "other"] _).2.1 (by decide)
    ⟨"oops", by decide, by decide, by decide, by decide⟩,
    (claim_C3 [".wine/drive_c"] _).2.2 (by decide) (by decide)⟩

/-- C4 (amended): the prefix-archive content scan records a fatal error iff no
member path is `.wine/`-rooted and at least one member is non-conforming; in
particular an archive holding a non-conforming member next to a
`.wine/`-rooted member passes this stage without error. -/
theorem claim_C4 (members : List String) (st : St) :
    (prefixPackScan members st).2.errors ≠ st.errors ↔
      ((∀ m ∈ members, pyStartsWith m ".wine/" = false) ∧
        ∃ m ∈ members, NonConforming m) := by
  constructor
  · intro h
    by_cases hempty : members.isEmpty
    · rw [prefixPackScan, if_pos hempty] at h
      exact absurd rfl h
    · rw [prefixPackScan, if_neg hempty] at h
      by_cases hcond : ¬ members.any (fun m => pyStartsWith m ".wine/") ∧
          ¬ (missingPfxList members).isEmpty
      · obtain ⟨hany, hfil⟩ := hcond
        constructor
        · intro x hx
          by_contra hx2
          apply hany
          rw [List.any_eq_true]
          exact ⟨x, hx, by revert hx2; cases pyStartsWith x ".wine/" <;> simp⟩
        · have hne : missingPfxList members ≠ [] := by
            intro h0
            apply hfil
            rw [h0]
            rfl
          obtain ⟨m, hm⟩ := List.exists_mem_of_ne_nil _ hne
          rw [missingPfxList, List.mem_filter, missingPfxPred] at hm
          obtain ⟨hmem, hpred⟩ := hm
          refine ⟨m, hmem, ?_, ?_, ?_⟩
          · intro h0
            rw [h0] at hpred
            simp at hpred
          · cases h2 : pyStartsWith m "./" with
            | false => rfl
            | true => rw [h2] at hpred; simp at hpred
          · cases h2 : pyStartsWith m ".wine/" with
            | false => rfl
            | true => rw [h2] at hpred; simp at hpred
      · rw [if_neg hcond] at h
        exact absurd rfl h
  · rintro ⟨hall, hex⟩
    rw [prefixPackScan_error_case st hall hex]
    intro h0
    have := congrArg List.length h0
    simp [addError] at this

/-- Counterexample to C4 as stated: an archive with a member path that is
neither the root marker nor `./`-rooted nor `.wine/`-rooted, next to one
`.wine/`-rooted member, on which the content validator records no fatal
error. -/
theorem claim_C4_cex :
    (∃ m ∈ ([".wine/system.reg", "evil.txt"] : List String), NonConforming m) ∧
    prefixPackScan [".wine/system.reg", "evil.txt"] ⟨[], [], []⟩ =
      (true, ⟨[], [], []⟩) := by
  constructor
  · exact ⟨"evil.txt", by decide, by decide, by decide, by decide⟩
  · decide

/-- C9: the extractor tries zstd first and succeeds silently; a failed zstd
attempt (non-zero exit, caught invocation failure, or timeout — all satisfy
`caughtFailure`, so a timeout is a failed attempt, not a crash) falls through
to xz, whose success records exactly the one non-preferred-codec warning; both
attempts failing records exactly one fatal error naming both codecs. -/
theorem claim_C9 (w : World) (st : St) :
    (w.zstd = .exitCode 0 → extractWcp w st = (true, logStage st 1)) ∧
    (caughtFailure w.zstd = true → w.xz = .exitCode 0 →
      extractWcp w st =
        (true, addWarning (logStage st 1) "WCP uses xz compression, should use zstd")) ∧
    (caughtFailure w.zstd = true → caughtFailure w.xz = true →
      extractWcp w st = (false, addError (logStage st 1)
        "Failed to extract WCP archive with tar (tried zstd and xz)")) := by
  refine ⟨?_, ?_, ?_⟩
  · intro h
    simp [extractWcp, h]
  · intro h1 h2
    cases hz : w.zstd with
    | exitCode c =>
      cases c with
      | zero => rw [hz] at h1; simp [caughtFailure] at h1
      | succ n => simp [extractWcp, hz, h2]
    | subprocErr => simp [extractWcp, hz, h2]
    | timeoutExpired => simp [extractWcp, hz, h2]
    | fileNotFound => simp [extractWcp, hz, h2]
    | unexpected e => rw [hz] at h1; simp [caughtFailure] at h1
  · intro h1 h2
    have hxz : ∀ st1 : St,
        (match w.xz with
          | .exitCode 0 => (true, addWarning st1 "WCP uses xz compression, should use zstd")
          | .unexpected e => (false, addError st1 ("Error extracting WCP: " ++ e))
          | _ => (false, addError st1 "Failed to extract WCP archive with tar (tried zstd and xz)"))
          = (false, addError st1 "Failed to extract WCP archive with tar (tried zstd and xz)") := by
      intro st1
      cases hx : w.xz with
      | exitCode c =>
        cases c with
        | zero => rw [hx] at h2; simp [caughtFailure] at h2
        | succ n => rfl
      | subprocErr => rfl
      | timeoutExpired => rfl
      | fileNotFound => rfl
      | unexpected e => rw [hx] at h2; simp [caughtFailure] at h2
    cases hz : w.zstd with
    | exitCode c =>
      cases c with
      | zero => rw [hz] at h1; simp [caughtFailure] at h1
      | succ n =>
        show extractWcp w st = _
        rw [extractWcp, hz]
        exact hxz (logStage st 1)
    | subprocErr =>
      rw [extractWcp, hz]
      exact hxz (logStage st 1)
    | timeoutExpired =>
      rw [extractWcp, hz]
      exact hxz (logStage st 1)
    | fileNotFound =>
      rw [extractWcp, hz]
      exact hxz (logStage st 1)
    | unexpected e => rw [hz] at h1; simp [caughtFailure] at h1

/-- Witness for C9: the three extraction outcomes at concrete worlds. -/
theorem claim_C9_witness :
    extractWcp (extractWorld (.exitCode 0) (.exitCode 0)) ⟨[], [], []⟩ =
      (true, logStage ⟨[], [], []⟩ 1) ∧
    extractWcp (extractWorld .timeoutExpired (.exitCode 0)) ⟨[], [], []⟩ =
      (true, addWarning (logStage ⟨[], [], []⟩ 1) "WCP uses xz compression, should use zstd") ∧
    extractWcp (extractWorld (.exitCode 2) .subprocErr) ⟨[], [], []⟩ =
      (false, addError (logStage ⟨[], [], []⟩ 1)
        "Failed to extract WCP archive with tar (tried zstd and xz)") :=
  ⟨(claim_C9 (extractWorld (.exitCode 0) (.exitCode 0)) ⟨[], [], []⟩).1 rfl,
    (claim_C9 (extractWorld .timeoutExpired (.exitCode 0)) ⟨[], [], []⟩).2.1 (by decide) rfl,
    (claim_C9 (extractWorld (.exitCode 2) .subprocErr) ⟨[], [], []⟩).2.2 (by decide) (by decide)⟩

/-! ## Claim theorems: manifest schema -/

theorem requiredFieldErrors_dict (es : List (String × PyVal)) :
    ∀ fields : List String,
      requiredFieldErrors (.dict es) fields = .ok (fields.filterMap (fun f =>
        if es.any (fun e => e.1 == f) then Option.none
        else some ("Missing required field: " ++ f))) := by
  intro fields
  induction fields with
  | nil => rfl
  | cons f rest ih =>
    rw [requiredFieldErrors, List.filterMap_cons]
    cases hf : es.any (fun e => e.1 == f) with
    | true =>
      simp only [pyContains, hf, if_true]
      exact ih
    | false =>
      simp only [pyContains, hf, if_false]
      rw [ih]
      rfl

/-- C7: a manifest dictionary missing at least one required top-level field is
rejected with exactly one missing-field message per absent required field, in
declaration order, and nothing else: no type, versionCode, files, section or
identifier check contributes an error. -/
theorem claim_C7 (es : List (String × PyVal))
    (hmiss : ∃ f ∈ REQUIRED_FIELDS, (es.any (fun e => e.1 == f)) = false) :
    validate_profile (.dict es) = .ok (false, REQUIRED_FIELDS.filterMap (fun f =>
      if es.any (fun e => e.1 == f) then Option.none
      else some ("Missing required field: " ++ f))) := by
  obtain ⟨f, hf, hff⟩ := hmiss
  have hmem : ("Missing required field: " ++ f) ∈ REQUIRED_FIELDS.filterMap (fun f =>
      if es.any (fun e => e.1 == f) then Option.none
      else some ("Missing required field: " ++ f)) := by
    rw [List.mem_filterMap]
    exact ⟨f, hf, by rw [hff]; rfl⟩
  have hne : REQUIRED_FIELDS.filterMap (fun f =>
      if es.any (fun e => e.1 == f) then Option.none
      else some ("Missing required field: " ++ f)) ≠ [] :=
    List.ne_nil_of_mem hmem
  rw [validate_profile, requiredFieldErrors_dict]
  dsimp only
  rw [if_pos ?_]
  intro h0
  rw [List.isEmpty_iff] at h0
  exact hne h0

/-- Witness for C7: a manifest holding only `type`. -/
theorem claim_C7_witness :
    (∃ f ∈ REQUIRED_FIELDS,
      (([("type", PyVal.str "Wine")] : List (String × PyVal)).any (fun e => e.1 == f)) = false) ∧
    validate_profile (.dict [("type", PyVal.str "Wine")]) =
      .ok (false, REQUIRED_FIELDS.filterMap (fun f =>
        if ([("type", PyVal.str "Wine")] : List (String × PyVal)).any (fun e => e.1 == f)
        then Option.none
        else some ("Missing required field: " ++ f))) :=
  ⟨⟨"versionName", by decide, by decide⟩,
    claim_C7 _ ⟨"versionName", by decide, by decide⟩⟩

/-- C10: the versionCode check records its one error exactly when Python
`int()` coercion raises (`ValueError`/`TypeError` in the model `pyIntCoerce`):
any finite float passes (e.g. 7.5), any bool passes, the integer-valued string
"7" passes, the string "7.0" fails; a DXVK manifest whose versionCode is the
float 7.5 is schema-valid, while one whose versionCode is the string "7.0" is
rejected with exactly the versionCode error. -/
theorem claim_C10 :
    (∀ v : PyVal, versionCodeErrors v ≠ [] ↔ ∃ e, pyIntCoerce v = .error e) ∧
    (∀ q : Rat, versionCodeErrors (.float q) = []) ∧
    (∀ b : Bool, versionCodeErrors (.bool b) = []) ∧
    versionCodeErrors (.str "7") = [] ∧
    versionCodeErrors (.str "7.0") = ["versionCode must be an integer, got: 7.0"] ∧
    validate_profile (.dict [("type", PyVal.str "DXVK"), ("versionName", PyVal.str "2.4"),
      ("versionCode", PyVal.float (15 / 2)), ("description", PyVal.str "d"),
      ("files", PyVal.list [])]) = .ok (true, []) ∧
    validate_profile (.dict [("type", PyVal.str "DXVK"), ("versionName", PyVal.str "2.4"),
      ("versionCode", PyVal.str "7.0"), ("description", PyVal.str "d"),
      ("files", PyVal.list [])]) =
        .ok (false, ["versionCode must be an integer, got: 7.0"]) := by
  refine ⟨?_, ?_, ?_, by decide, by decide, by rfl, by rfl⟩
  · intro v
    cases h : pyIntCoerce v with
    | ok n => simp [versionCodeErrors, h]
    | error e => simp [versionCodeErrors, h]
  · intro q
    simp [versionCodeErrors, pyIntCoerce]
  · intro b
    simp [versionCodeErrors, pyIntCoerce]

/-! ## Claim theorems: file-tree validator -/

theorem pyGetItem_dict {es : List (String × PyVal)} {k : String} {v : PyVal}
    (h : es.lookup k = some v) : pyGetItem (.dict es) k = .ok v := by
  rw [pyGetItem, h]

theorem pyGet_dict {es : List (String × PyVal)} {k : String} {v d : PyVal}
    (h : es.lookup k = some v) : pyGet (.dict es) k d = .ok v := by
  rw [pyGet, h]
  rfl

/-- C8 (amended): for a schema-valid Wine or Proton manifest whose type
section is a dictionary with string-valued `binPath`, `libPath` and
`prefixPack`, the file-tree validator evaluates all three kind checks with no
short-circuit, appending one error naming `<section>.<key>` and the declared
path for each failed check and nothing else; for a manifest of any other
declared type the stage records nothing and succeeds. (With a non-string path
value the stage instead raises before reporting, see the counterexample.) -/
theorem claim_C8 (w : World) (st : St) :
    (∀ (m sd : List (String × PyVal)) (T bp lp pp : String),
      (T = "Wine" ∨ T = "Proton") →
      m.lookup "type" = some (.str T) →
      m.lookup (if T = "Wine" then "wine" else "proton") = some (.dict sd) →
      sd.lookup "binPath" = some (.str bp) →
      sd.lookup "libPath" = some (.str lp) →
      sd.lookup "prefixPack" = some (.str pp) →
      validate_profile (.dict m) = .ok (true, []) →
      validateWineProtonFiles w (.dict m) st = .ok
        ((st.errors
          ++ (if ¬ (w.fs.fExists bp && w.fs.fIsDir bp) then
                [(if T = "Wine" then "wine" else "proton") ++ ".binPath '" ++ bp ++
                  "' is not a directory"] else [])
          ++ (if ¬ (w.fs.fExists lp && w.fs.fIsDir lp) then
                [(if T = "Wine" then "wine" else "proton") ++ ".libPath '" ++ lp ++
                  "' is not a directory"] else [])
          ++ (if ¬ (w.fs.fExists pp && w.fs.fIsFile pp) then
                [(if T = "Wine" then "wine" else "proton") ++ ".prefixPack '" ++ pp ++
                  "' is not a file"] else [])).isEmpty,
          ⟨st.errors
            ++ (if ¬ (w.fs.fExists bp && w.fs.fIsDir bp) then
                  [(if T = "Wine" then "wine" else "proton") ++ ".binPath '" ++ bp ++
                    "' is not a directory"] else [])
            ++ (if ¬ (w.fs.fExists lp && w.fs.fIsDir lp) then
                  [(if T = "Wine" then "wine" else "proton") ++ ".libPath '" ++ lp ++
                    "' is not a directory"] else [])
            ++ (if ¬ (w.fs.fExists pp && w.fs.fIsFile pp) then
                  [(if T = "Wine" then "wine" else "proton") ++ ".prefixPack '" ++ pp ++
                    "' is not a file"] else []),
            st.warnings, st.log ++ [4]⟩)) ∧
    (∀ (d tv : PyVal), pyGetItem d "type" = .ok tv → isWineProton tv = false →
      validateWineProtonFiles w d st = .ok (true, logStage st 4)) := by
  constructor
  · intro m sd T bp lp pp hT htype hsec hbp hlp hpp _
    have hsk : isWineProton (.str T) = true := by
      rcases hT with rfl | rfl <;> rfl
    have hkey : sectionKeyOf (.str T) = (if T = "Wine" then "wine" else "proton") := by
      rcases hT with rfl | rfl <;> rfl
    rw [validateWineProtonFiles, pyGetItem_dict htype]
    dsimp only
    rw [if_pos hsk, hkey, pyGet_dict hsec]
    dsimp only
    rw [pyGet_dict hbp, pyGet_dict hlp, pyGet_dict hpp]
    dsimp only [pathJoin]
    by_cases hb : w.fs.fExists bp && w.fs.fIsDir bp <;>
      by_cases hl : w.fs.fExists lp && w.fs.fIsDir lp <;>
        by_cases hp : w.fs.fExists pp && w.fs.fIsFile pp <;>
          simp [hb, hl, hp, addError, logStage]
  · intro d tv hget hWP
    rw [validateWineProtonFiles, hget]
    dsimp only
    rw [if_neg ?_]
    intro h0
    rw [hWP] at h0
    cases h0

/-- Witness for C8: a schema-valid Wine manifest against an empty scratch
directory collects all three kind errors in one pass, and a DXVK manifest
skips the stage. -/
theorem claim_C8_witness :
    validateWineProtonFiles (extractWorld (.exitCode 0) (.exitCode 0))
      (.dict [("type", PyVal.str "Wine"), ("versionName", PyVal.str "9.0-x86"),
        ("versionCode", PyVal.int 1), ("description", PyVal.str "d"),
        ("files", PyVal.list []),
        ("wine", PyVal.dict [("binPath", PyVal.str "bin"), ("libPath", PyVal.str "lib"),
          ("prefixPack", PyVal.str "prefixPack.txz")])]) ⟨[], [], []⟩ =
      .ok (false,
        ⟨["wine.binPath 'bin' is not a directory",
          "wine.libPath 'lib' is not a directory",
          "wine.prefixPack 'prefixPack.txz' is not a file"], [], [4]⟩) ∧
    validateWineProtonFiles (extractWorld (.exitCode 0) (.exitCode 0))
      (.dict [("type", PyVal.str "DXVK")]) ⟨[], [], []⟩ =
      .ok (true, logStage ⟨[], [], []⟩ 4) := by
  constructor
  · have h := (claim_C8 (extractWorld (.exitCode 0) (.exitCode 0)) ⟨[], [], []⟩).1
      [("type", PyVal.str "Wine"), ("versionName", PyVal.str "9.0-x86"),
        ("versionCode", PyVal.int 1), ("description", PyVal.str "d"),
        ("files", PyVal.list []),
        ("wine", PyVal.dict [("binPath", PyVal.str "bin"), ("libPath", PyVal.str "lib"),
          ("prefixPack", PyVal.str "prefixPack.txz")])]
      [("binPath", PyVal.str "bin"), ("libPath", PyVal.str "lib"),
        ("prefixPack", PyVal.str "prefixPack.txz")]
      "Wine" "bin" "lib" "prefixPack.txz" (Or.inl rfl) (by rfl) (by rfl) (by rfl) (by rfl)
      (by rfl) (by rfl)
    exact h
  · exact (claim_C8 (extractWorld (.exitCode 0) (.exitCode 0)) ⟨[], [], []⟩).2
      (.dict [("type", PyVal.str "DXVK")]) (.str "DXVK") (by rfl) rfl

/-- Counterexample to C8 as stated: a schema-valid Wine manifest whose
`binPath` is the integer 5 makes the stage raise a `TypeError` at the path
join, recording no error and never reaching the remaining checks. -/
theorem claim_C8_cex :
    validate_profile (.dict [("type", PyVal.str "Wine"), ("versionName", PyVal.str "9.0-x86"),
      ("versionCode", PyVal.int 1), ("description", PyVal.str "d"),
      ("files", PyVal.list []),
      ("wine", PyVal.dict [("binPath", PyVal.int 5), ("libPath", PyVal.str "lib"),
        ("prefixPack", PyVal.str "prefixPack.txz")])]) = .ok (true, []) ∧
    validateWineProtonFiles (extractWorld (.exitCode 0) (.exitCode 0))
      (.dict [("type", PyVal.str "Wine"), ("versionName", PyVal.str "9.0-x86"),
        ("versionCode", PyVal.int 1), ("description", PyVal.str "d"),
        ("files", PyVal.list []),
        ("wine", PyVal.dict [("binPath", PyVal.int 5), ("libPath", PyVal.str "lib"),
          ("prefixPack", PyVal.str "prefixPack.txz")])]) ⟨[], [], []⟩ =
      .error (.typeError "unsupported operand type for path join") := by
  exact ⟨by rfl, by rfl⟩

/-! ## Pipeline stage lemmas -/

theorem expectedDirWarnings_pres (w : World) (st : St) :
    (expectedDirWarnings w st).errors = st.errors ∧
    (expectedDirWarnings w st).log = st.log := by
  rw [expectedDirWarnings]
  generalize ["bin", "lib", "share"] = l
  induction l generalizing st with
  | nil => exact ⟨rfl, rfl⟩
  | cons dn rest ih =>
    rw [List.foldl_cons]
    by_cases h : w.fs.fExists dn
    · rw [if_neg (by simp [h])]
      exact ih st
    · rw [if_pos (by simp [h])]
      obtain ⟨h1, h2⟩ := ih (addWarning st ("Expected directory not found: " ++ dn ++ "/"))
      rw [h1, h2]
      exact ⟨rfl, rfl⟩

theorem wcpJsonStep_pres (w : World) (st : St) :
    (wcpJsonStep w st).errors = st.errors ∧ (wcpJsonStep w st).log = st.log := by
  rw [wcpJsonStep]
  by_cases h : w.fs.fExists "wcp.json"
  · rw [if_pos h]
    cases w.wcpJson with
    | ok v => cases v <;> exact ⟨rfl, rfl⟩
    | decodeErr e => exact ⟨rfl, rfl⟩
    | readErr e => exact ⟨rfl, rfl⟩
  · rw [if_neg h]
    exact ⟨rfl, rfl⟩

theorem binHeuristic_pres (w : World) (st : St) :
    (binHeuristic w st).errors = st.errors ∧ (binHeuristic w st).log = st.log := by
  rw [binHeuristic]
  split
  · split <;> exact ⟨rfl, rfl⟩
  · exact ⟨rfl, rfl⟩

theorem libHeuristic_pres (w : World) (st : St) :
    (libHeuristic w st).errors = st.errors ∧ (libHeuristic w st).log = st.log := by
  rw [libHeuristic]
  split
  · split <;> exact ⟨rfl, rfl⟩
  · exact ⟨rfl, rfl⟩

theorem validateDirectoryStructure_ok (w : World) (st : St)
    (hprof : w.fs.fExists "profile.json" = true) :
    (validateDirectoryStructure w st).2.errors = st.errors ∧
    (validateDirectoryStructure w st).1 = st.errors.isEmpty ∧
    (validateDirectoryStructure w st).2.log = st.log ++ [6] := by
  rw [validateDirectoryStructure]
  dsimp only
  rw [if_neg (by simp [hprof])]
  obtain ⟨e1, l1⟩ := expectedDirWarnings_pres w (logStage st 6)
  obtain ⟨e2, l2⟩ := wcpJsonStep_pres w (expectedDirWarnings w (logStage st 6))
  obtain ⟨e3, l3⟩ := binHeuristic_pres w
    (wcpJsonStep w (expectedDirWarnings w (logStage st 6)))
  obtain ⟨e4, l4⟩ := libHeuristic_pres w
    (binHeuristic w (wcpJsonStep w (expectedDirWarnings w (logStage st 6))))
  rw [e4, e3, e2, e1, l4, l3, l2, l1]
  exact ⟨rfl, rfl, rfl⟩

theorem extractWcp_spec (w : World) (st : St) :
    ((extractWcp w st).1 = true → (extractWcp w st).2.errors = st.errors) ∧
    ((extractWcp w st).1 = false → ∃ e, (extractWcp w st).2.errors = st.errors ++ [e]) ∧
    (extractWcp w st).2.log = st.log ++ [1] := by
  cases hz : w.zstd with
  | exitCode c =>
    cases c with
    | zero => simp [extractWcp, hz, logStage]
    | succ n =>
      cases hx : w.xz with
      | exitCode c2 =>
        cases c2 with
        | zero => simp [extractWcp, hz, hx, addWarning, logStage]
        | succ n2 => simp [extractWcp, hz, hx, addError, logStage]
      | subprocErr => simp [extractWcp, hz, hx, addError, logStage]
      | timeoutExpired => simp [extractWcp, hz, hx, addError, logStage]
      | fileNotFound => simp [extractWcp, hz, hx, addError, logStage]
      | unexpected e => simp [extractWcp, hz, hx, addError, logStage]
  | subprocErr =>
    cases hx : w.xz with
    | exitCode c2 =>
      cases c2 with
      | zero => simp [extractWcp, hz, hx, addWarning, logStage]
      | succ n2 => simp [extractWcp, hz, hx, addError, logStage]
    | subprocErr => simp [extractWcp, hz, hx, addError, logStage]
    | timeoutExpired => simp [extractWcp, hz, hx, addError, logStage]
    | fileNotFound => simp [extractWcp, hz, hx, addError, logStage]
    | unexpected e => simp [extractWcp, hz, hx, addError, logStage]
  | timeoutExpired =>
    cases hx : w.xz with
    | exitCode c2 =>
      cases c2 with
      | zero => simp [extractWcp, hz, hx, addWarning, logStage]
      | succ n2 => simp [extractWcp, hz, hx, addError, logStage]
    | subprocErr => simp [extractWcp, hz, hx, addError, logStage]
    | timeoutExpired => simp [extractWcp, hz, hx, addError, logStage]
    | fileNotFound => simp [extractWcp, hz, hx, addError, logStage]
    | unexpected e => simp [extractWcp, hz, hx, addError, logStage]
  | fileNotFound =>
    cases hx : w.xz with
    | exitCode c2 =>
      cases c2 with
      | zero => simp [extractWcp, hz, hx, addWarning, logStage]
      | succ n2 => simp [extractWcp, hz, hx, addError, logStage]
    | subprocErr => simp [extractWcp, hz, hx, addError, logStage]
    | timeoutExpired => simp [extractWcp, hz, hx, addError, logStage]
    | fileNotFound => simp [extractWcp, hz, hx, addError, logStage]
    | unexpected e => simp [extractWcp, hz, hx, addError, logStage]
  | unexpected e => simp [extractWcp, hz, addError, logStage]

theorem checkProfileExists_spec (w : World) (st : St) :
    ((checkProfileExists w st).1 = true → (checkProfileExists w st).2.errors = st.errors ∧
      w.fs.fExists "profile.json" = true) ∧
    ((checkProfileExists w st).1 = false →
      ∃ e, (checkProfileExists w st).2.errors = st.errors ++ [e]) ∧
    (checkProfileExists w st).2.log = st.log ++ [2] := by
  by_cases h : w.fs.fExists "profile.json"
  · simp [checkProfileExists, h, logStage]
  · simp [checkProfileExists, h, addError, logStage]

theorem validate_profile_false_ne_nil {v : PyVal} {errs : List String}
    (h : validate_profile v = .ok (false, errs)) : errs ≠ [] := by
  rw [validate_profile] at h
  cases hrf : requiredFieldErrors v REQUIRED_FIELDS with
  | error e => rw [hrf] at h; cases h
  | ok errs1 =>
    rw [hrf] at h
    dsimp only at h
    by_cases h1 : errs1.isEmpty
    · rw [if_neg (by simp [h1])] at h
      cases hg1 : pyGet v "type" .none with
      | error e => rw [hg1] at h; cases h
      | ok tval =>
        rw [hg1] at h
        dsimp only at h
        cases hg2 : pyGet v "versionCode" .none with
        | error e => rw [hg2] at h; cases h
        | ok vcv =>
          rw [hg2] at h
          dsimp only at h
          cases hg3 : pyGet v "files" .none with
          | error e => rw [hg3] at h; cases h
          | ok fv =>
            rw [hg3] at h
            dsimp only at h
            cases hg4 : sectionErrors v tval with
            | error e => rw [hg4] at h; cases h
            | ok secErrs =>
              rw [hg4] at h
              dsimp only at h
              cases hg5 : identifierErrors v tval with
              | error e => rw [hg5] at h; cases h
              | ok identErrs =>
                rw [hg5] at h
                dsimp only at h
                injection h with h
                rw [Prod.mk.injEq] at h
                obtain ⟨hb, he⟩ := h
                rw [← he]
                intro h0
                rw [h0] at hb
                cases hb
    · rw [if_pos (by simp [h1])] at h
      injection h with h
      rw [Prod.mk.injEq] at h
      obtain ⟨-, he⟩ := h
      rw [← he]
      intro h0
      rw [h0] at h1
      exact h1 rfl

theorem validateProfileStructure_spec (w : World) (st : St) {res : Option PyVal} {st' : St}
    (h : validateProfileStructure w st = .ok (res, st')) :
    st'.log = st.log ++ [3] ∧
    (∀ d, res = some d → st'.errors = st.errors ∧ w.profileJson = .ok d ∧
      validate_profile d = .ok (true, [])) ∧
    (res = Option.none → ∃ es, es ≠ [] ∧ st'.errors = st.errors ++ es) := by
  rw [validateProfileStructure] at h
  cases hpj : w.profileJson with
  | decodeErr e =>
    rw [hpj] at h
    injection h with h
    rw [Prod.mk.injEq] at h
    obtain ⟨hres, hst⟩ := h
    refine ⟨by rw [← hst]; rfl, ?_, ?_⟩
    · intro d hd
      rw [← hres] at hd
      cases hd
    · intro _
      exact ⟨["Invalid JSON in profile.json: " ++ e], by simp, by rw [← hst]; rfl⟩
  | readErr e =>
    rw [hpj] at h
    injection h with h
    rw [Prod.mk.injEq] at h
    obtain ⟨hres, hst⟩ := h
    refine ⟨by rw [← hst]; rfl, ?_, ?_⟩
    · intro d hd
      rw [← hres] at hd
      cases hd
    · intro _
      exact ⟨["Error reading profile.json: " ++ e], by simp, by rw [← hst]; rfl⟩
  | ok d0 =>
    rw [hpj] at h
    dsimp only at h
    cases hvp : validate_profile d0 with
    | error e => rw [hvp] at h; cases h
    | ok p =>
      obtain ⟨valid, errs⟩ := p
      rw [hvp] at h
      dsimp only at h
      cases valid with
      | false =>
        rw [if_neg (by simp)] at h
        injection h with h
        rw [Prod.mk.injEq] at h
        obtain ⟨hres, hst⟩ := h
        refine ⟨by rw [← hst]; rfl, ?_, ?_⟩
        · intro d hd
          rw [← hres] at hd
          cases hd
        · intro _
          exact ⟨errs, validate_profile_false_ne_nil hvp, by rw [← hst]; rfl⟩
      | true =>
        rw [if_pos rfl] at h
        cases hg1 : pyGetItem d0 "type" with
        | error e => rw [hg1] at h; cases h
        | ok tv =>
          rw [hg1] at h
          dsimp only at h
          cases hg2 : pyGetItem d0 "versionName" with
          | error e => rw [hg2] at h; cases h
          | ok vn =>
            rw [hg2] at h
            dsimp only at h
            cases hg3 : pyGetItem d0 "versionCode" with
            | error e => rw [hg3] at h; cases h
            | ok _ =>
              rw [hg3] at h
              dsimp only at h
              cases hg4 : constructIdentifierPy tv vn with
              | error e => rw [hg4] at h; cases h
              | ok _ =>
                rw [hg4] at h
                injection h with h
                rw [Prod.mk.injEq] at h
                obtain ⟨hres, hst⟩ := h
                have herrs0 : errs = [] := by
                  rw [validate_profile] at hvp
                  cases hrf : requiredFieldErrors d0 REQUIRED_FIELDS with
                  | error e => rw [hrf] at hvp; cases hvp
                  | ok errs1 =>
                    rw [hrf] at hvp
                    dsimp only at hvp
                    by_cases h1 : errs1.isEmpty
                    · rw [if_neg (by simp [h1])] at hvp
                      cases hh1 : pyGet d0 "type" .none with
                      | error e => rw [hh1] at hvp; cases hvp
                      | ok tval =>
                        rw [hh1] at hvp
                        dsimp only at hvp
                        cases hh2 : pyGet d0 "versionCode" .none with
                        | error e => rw [hh2] at hvp; cases hvp
                        | ok vcv =>
                          rw [hh2] at hvp
                          dsimp only at hvp
                          cases hh3 : pyGet d0 "files" .none with
                          | error e => rw [hh3] at hvp; cases hvp
                          | ok fv =>
                            rw [hh3] at hvp
                            dsimp only at hvp
                            cases hh4 : sectionErrors d0 tval with
                            | error e => rw [hh4] at hvp; cases hvp
                            | ok secErrs =>
                              rw [hh4] at hvp
                              dsimp only at hvp
                              cases hh5 : identifierErrors d0 tval with
                              | error e => rw [hh5] at hvp; cases hvp
                              | ok identErrs =>
                                rw [hh5] at hvp
                                dsimp only at hvp
                                injection hvp with hvp
                                rw [Prod.mk.injEq] at hvp
                                obtain ⟨hb, he⟩ := hvp
                                rw [← he]
                                rw [List.isEmpty_iff] at hb
                                exact hb
                    · rw [if_pos (by simp [h1])] at hvp
                      injection hvp with hvp
                      rw [Prod.mk.injEq] at hvp
                      obtain ⟨hb, -⟩ := hvp
                      cases hb
                refine ⟨by rw [← hst]; rfl, ?_, ?_⟩
                · intro d hd
                  rw [← hres] at hd
                  injection hd with hd
                  subst hd
                  exact ⟨by rw [← hst]; rfl, rfl, by rw [hvp, herrs0]⟩
                · intro h0
                  rw [← hres] at h0
                  cases h0

theorem prefixPackScan_spec (members : List String) (st : St) :
    ((prefixPackScan members st).1 = true → (prefixPackScan members st).2.errors = st.errors) ∧
    ((prefixPackScan members st).1 = false →
      ∃ e, (prefixPackScan members st).2.errors = st.errors ++ [e]) ∧
    (prefixPackScan members st).2.log = st.log := by
  rw [prefixPackScan]
  split
  · refine ⟨fun _ => rfl, fun h0 => ?_, rfl⟩
    cases h0
  · split
    · refine ⟨fun h0 => ?_, fun _ => ⟨_, rfl⟩, rfl⟩
      cases h0
    · refine ⟨fun _ => rfl, fun h0 => ?_, rfl⟩
      cases h0

theorem validateWineProtonFiles_ok (w : World) (d : PyVal) (st : St) {b : Bool} {st' : St}
    (hentry : st.errors = [])
    (h : validateWineProtonFiles w d st = .ok (b, st')) :
    st'.log = st.log ++ [4] ∧
    (b = true ↔ st'.errors = []) ∧
    (b = true → st'.errors = [] ∧
      ∀ tv, pyGetItem d "type" = .ok tv → isWineProton tv = true →
      ∃ sd ppV pp, pyGet d (sectionKeyOf tv) (.dict []) = .ok sd ∧
        pyGet sd "prefixPack" .none = .ok ppV ∧ pathJoin ppV = .ok pp ∧
        w.fs.fExists pp = true ∧ w.fs.fIsFile pp = true) := by
  rw [validateWineProtonFiles] at h
  cases hg1 : pyGetItem d "type" with
  | error e => rw [hg1] at h; cases h
  | ok tv =>
    rw [hg1] at h
    dsimp only at h
    by_cases hwp : isWineProton tv = true
    · rw [if_pos hwp] at h
      cases hg2 : pyGet d (sectionKeyOf tv) (.dict []) with
      | error e => rw [hg2] at h; cases h
      | ok sd =>
        rw [hg2] at h
        dsimp only at h
        cases hg3 : pyGet sd "binPath" .none with
        | error e => rw [hg3] at h; cases h
        | ok bpV =>
          rw [hg3] at h
          dsimp only at h
          cases hg4 : pyGet sd "libPath" .none with
          | error e => rw [hg4] at h; cases h
          | ok lpV =>
            rw [hg4] at h
            dsimp only at h
            cases hg5 : pyGet sd "prefixPack" .none with
            | error e => rw [hg5] at h; cases h
            | ok ppV =>
              rw [hg5] at h
              dsimp only at h
              cases hj1 : pathJoin bpV with
              | error e => rw [hj1] at h; cases h
              | ok bp =>
                rw [hj1] at h
                dsimp only at h
                cases hj2 : pathJoin lpV with
                | error e => rw [hj2] at h; cases h
                | ok lp =>
                  rw [hj2] at h
                  dsimp only at h
                  cases hj3 : pathJoin ppV with
                  | error e => rw [hj3] at h; cases h
                  | ok pp =>
                    rw [hj3] at h
                    dsimp only at h
                    injection h with h
                    rw [Prod.mk.injEq] at h
                    obtain ⟨hb, hst⟩ := h
                    by_cases hc3 : w.fs.fExists pp && w.fs.fIsFile pp
                    · refine ⟨?_, ?_, ?_⟩
                      · rw [← hst]
                        repeat' split
                        all_goals simp [addError, logStage]
                      · rw [← hb, ← hst, List.isEmpty_iff]
                      · intro hbt
                        have herr : st'.errors = [] := by
                          rw [← List.isEmpty_iff, ← hst, hb, hbt]
                        refine ⟨herr, ?_⟩
                        intro tv' htv' hwp'
                        have htveq : tv' = tv := by
                          injection htv' with h2
                          exact h2.symm
                        subst htveq
                        rw [Bool.and_eq_true] at hc3
                        exact ⟨sd, ppV, pp, hg2, hg5, hj3, hc3.1, hc3.2⟩
                    · -- the prefixPack check fails: an error is appended, so b = false
                      have hne : st'.errors ≠ [] := by
                        rw [← hst]
                        rw [if_pos (by simp [hc3])]
                        simp only [addError]
                        intro h0
                        have := congrArg List.length h0
                        simp at this
                      refine ⟨?_, ?_, ?_⟩
                      · rw [← hst]
                        repeat' split
                        all_goals simp [addError, logStage]
                      · rw [← hb, ← hst]
                        constructor
                        · intro hbt
                          rw [List.isEmpty_iff] at hbt
                          rw [hst] at hbt
                          exact absurd hbt hne
                        · intro h0
                          rw [hst] at h0
                          exact absurd h0 hne
                      · intro hbt
                        rw [← hb, List.isEmpty_iff] at hbt
                        rw [hst] at hbt
                        exact absurd hbt hne
    · rw [if_neg hwp] at h
      injection h with h
      rw [Prod.mk.injEq] at h
      obtain ⟨hb, hst⟩ := h
      refine ⟨by rw [← hst]; rfl, ?_, ?_⟩
      · rw [← hb, ← hst]
        simp [logStage, hentry]
      · intro _
        refine ⟨by rw [← hst]; simp [logStage, hentry], ?_⟩
        intro tv' htv' hwp'
        have htveq : tv' = tv := by
          injection htv' with h2
          exact h2.symm
        subst htveq
        exact absurd hwp' hwp

theorem validatePrefixPack_ok (w : World) (d : PyVal) (st : St) {b : Bool} {st' : St}
    (hentry : st.errors = [])
    (hfs : ∀ tv, pyGetItem d "type" = .ok tv → isWineProton tv = true →
      ∃ sd ppV pp, pyGet d (sectionKeyOf tv) (.dict []) = .ok sd ∧
        pyGet sd "prefixPack" .none = .ok ppV ∧ pathJoin ppV = .ok pp ∧
        w.fs.fExists pp = true)
    (h : validatePrefixPack w d st = .ok (b, st')) :
    st'.log = st.log ++ [5] ∧ (b = true ↔ st'.errors = []) ∧
    (b = true → st'.errors = st.errors) := by
  rw [validatePrefixPack] at h
  cases hg1 : pyGetItem d "type" with
  | error e => rw [hg1] at h; cases h
  | ok tv =>
    rw [hg1] at h
    dsimp only at h
    by_cases hwp : isWineProton tv = true
    · obtain ⟨sd, ppV, pp, hg2, hg5, hj3, hex⟩ := hfs tv hg1 hwp
      rw [if_pos hwp, hg2] at h
      dsimp only at h
      rw [hg5] at h
      dsimp only at h
      rw [hj3] at h
      dsimp only at h
      rw [if_neg (by simp [hex])] at h
      cases htar : w.tarMembers pp with
      | err e =>
        rw [htar] at h
        injection h with h
        rw [Prod.mk.injEq] at h
        obtain ⟨hb, hst⟩ := h
        refine ⟨by rw [← hst]; rfl, ?_, ?_⟩
        · rw [← hb, ← hst]
          simp [addError, logStage]
        · intro h0
          cases hb.trans h0
      | ok members =>
        rw [htar] at h
        injection h with h
        have h1 : (prefixPackScan members (logStage st 5)).1 = b := by rw [h]
        have h2 : (prefixPackScan members (logStage st 5)).2 = st' := by rw [h]
        obtain ⟨hT, hF, hL⟩ := prefixPackScan_spec members (logStage st 5)
        refine ⟨?_, ?_, ?_⟩
        · rw [← h2, hL]
          rfl
        · constructor
          · intro hbt
            have he := hT (by rw [h1, hbt])
            rw [h2] at he
            rw [he]
            exact hentry
          · intro he
            cases hbv : b with
            | true => rfl
            | false =>
              obtain ⟨e, hee⟩ := hF (by rw [h1, hbv])
              rw [h2] at hee
              rw [he] at hee
              have := congrArg List.length hee
              simp [logStage] at this
        · intro hbt
          have he := hT (by rw [h1, hbt])
          rw [h2] at he
          rw [he]
          rfl
    · rw [if_neg hwp] at h
      injection h with h
      rw [Prod.mk.injEq] at h
      obtain ⟨hb, hst⟩ := h
      refine ⟨by rw [← hst]; rfl, ?_, ?_⟩
      · rw [← hb, ← hst]
        simp [logStage, hentry]
      · intro _
        rw [← hst]
        rfl

theorem runValidate_spec (w : World) {b : Bool} {st : St}
    (h : runValidate w = .ok (b, st)) :
    (b = true ↔ st.errors = []) ∧ (6 ∈ st.log ↔ st.errors = []) := by
  rw [runValidate] at h
  by_cases hex : w.wcpExists = true
  case neg =>
    rw [if_neg (by simpa using hex)] at h
    injection h with h
    rw [Prod.mk.injEq] at h
    obtain ⟨hb, hst⟩ := h
    subst hb
    subst hst
    constructor <;> simp [addError]
  case pos =>
    rw [if_pos hex] at h
    obtain ⟨sE1, sE2, sE3⟩ := extractWcp_spec w ⟨[], [], []⟩
    cases hE : extractWcp w ⟨[], [], []⟩ with
    | mk b1 st1 =>
      rw [hE] at h sE1 sE2 sE3
      dsimp only at h sE1 sE2 sE3
      cases b1 with
      | false =>
        injection h with h
        rw [Prod.mk.injEq] at h
        obtain ⟨hb, hst⟩ := h
        subst hb
        subst hst
        obtain ⟨e1, he1⟩ := sE2 rfl
        constructor <;> simp [he1, sE3]
      | true =>
        dsimp only at h
        have hc1 : st1.errors = [] := sE1 rfl
        obtain ⟨sP1, sP2, sP3⟩ := checkProfileExists_spec w st1
        cases hP : checkProfileExists w st1 with
        | mk b2 st2 =>
          rw [hP] at h sP1 sP2 sP3
          dsimp only at h sP1 sP2 sP3
          cases b2 with
          | false =>
            injection h with h
            rw [Prod.mk.injEq] at h
            obtain ⟨hb, hst⟩ := h
            subst hb
            subst hst
            obtain ⟨e2, he2⟩ := sP2 rfl
            constructor <;> simp [he2, sP3, sE3, hc1]
          | true =>
            dsimp only at h
            obtain ⟨hpe, hpex⟩ := sP1 rfl
            have hc2 : st2.errors = [] := by rw [hpe, hc1]
            cases hS : validateProfileStructure w st2 with
            | error e => rw [hS] at h; cases h
            | ok p =>
              obtain ⟨res, st3⟩ := p
              rw [hS] at h
              obtain ⟨sS1, sS2, sS3⟩ := validateProfileStructure_spec w st2 hS
              cases res with
              | none =>
                dsimp only at h
                injection h with h
                rw [Prod.mk.injEq] at h
                obtain ⟨hb, hst⟩ := h
                subst hb
                subst hst
                obtain ⟨es, hesne, hes⟩ := sS3 rfl
                have herrne : st3.errors ≠ [] := by
                  rw [hes, hc2]
                  simpa using hesne
                have hlog : ¬ 6 ∈ st3.log := by simp [sS1, sP3, sE3]
                exact ⟨⟨fun h0 => Bool.noConfusion h0, fun h0 => absurd h0 herrne⟩,
                  ⟨fun h6 => absurd h6 hlog, fun h0 => absurd h0 herrne⟩⟩
              | some d =>
                replace h : (match validateWineProtonFiles w d st3 with
                    | Except.error e => Except.error e
                    | Except.ok (false, st) => Except.ok (false, st)
                    | Except.ok (true, st) =>
                      match validatePrefixPack w d st with
                      | Except.error e => Except.error e
                      | Except.ok (false, st) => Except.ok (false, st)
                      | Except.ok (true, st) =>
                        match validateDirectoryStructure w st with
                        | (false, st) => Except.ok (false, st)
                        | (true, st) => Except.ok (st.errors.isEmpty, st)) =
                    Except.ok (b, st) := h
                obtain ⟨hse, hjson, hvalid⟩ := sS2 d rfl
                have hc3 : st3.errors = [] := by rw [hse, hc2]
                cases hW : validateWineProtonFiles w d st3 with
                | error e => rw [hW] at h; cases h
                | ok p4 =>
                  obtain ⟨b4, st4⟩ := p4
                  rw [hW] at h
                  obtain ⟨sW1, sW2, sW3⟩ := validateWineProtonFiles_ok w d st3 hc3 hW
                  cases b4 with
                  | false =>
                    dsimp only at h
                    injection h with h
                    rw [Prod.mk.injEq] at h
                    obtain ⟨hb, hst⟩ := h
                    subst hb
                    subst hst
                    have herrne : st4.errors ≠ [] := by
                      intro h0
                      cases sW2.mpr h0
                    have hlog : ¬ 6 ∈ st4.log := by simp [sW1, sS1, sP3, sE3]
                    exact ⟨⟨fun h0 => Bool.noConfusion h0, fun h0 => absurd h0 herrne⟩,
                      ⟨fun h6 => absurd h6 hlog, fun h0 => absurd h0 herrne⟩⟩
                  | true =>
                    dsimp only at h
                    obtain ⟨he4, hfs4⟩ := sW3 rfl
                    cases hX : validatePrefixPack w d st4 with
                    | error e => rw [hX] at h; cases h
                    | ok p5 =>
                      obtain ⟨b5, st5⟩ := p5
                      rw [hX] at h
                      have hfs4' : ∀ tv, pyGetItem d "type" = .ok tv →
                          isWineProton tv = true →
                          ∃ sd ppV pp, pyGet d (sectionKeyOf tv) (.dict []) = .ok sd ∧
                            pyGet sd "prefixPack" .none = .ok ppV ∧ pathJoin ppV = .ok pp ∧
                            w.fs.fExists pp = true := by
                        intro tv htv hwp
                        obtain ⟨sd, ppV, pp, a1, a2, a3, a4, a5⟩ := hfs4 tv htv hwp
                        exact ⟨sd, ppV, pp, a1, a2, a3, a4⟩
                      obtain ⟨sX1, sX2, sX3⟩ := validatePrefixPack_ok w d st4 he4 hfs4' hX
                      cases b5 with
                      | false =>
                        dsimp only at h
                        injection h with h
                        rw [Prod.mk.injEq] at h
                        obtain ⟨hb, hst⟩ := h
                        subst hb
                        subst hst
                        have herrne : st5.errors ≠ [] := by
                          intro h0
                          cases sX2.mpr h0
                        have hlog : ¬ 6 ∈ st5.log := by simp [sX1, sW1, sS1, sP3, sE3]
                        exact ⟨⟨fun h0 => Bool.noConfusion h0, fun h0 => absurd h0 herrne⟩,
                          ⟨fun h6 => absurd h6 hlog, fun h0 => absurd h0 herrne⟩⟩
                      | true =>
                        dsimp only at h
                        have he5 : st5.errors = st4.errors := sX3 rfl
                        have hc5 : st5.errors = [] := by rw [he5, he4]
                        obtain ⟨sD1, sD2, sD3⟩ := validateDirectoryStructure_ok w st5 hpex
                        cases hD : validateDirectoryStructure w st5 with
                        | mk b6 st6 =>
                          rw [hD] at h sD1 sD2 sD3
                          dsimp only at h sD1 sD2 sD3
                          have hb6 : b6 = true := by
                            rw [sD2, hc5]
                            rfl
                          subst hb6
                          dsimp only at h
                          injection h with h
                          rw [Prod.mk.injEq] at h
                          obtain ⟨hb, hst⟩ := h
                          subst hb
                          subst hst
                          have herr6 : st6.errors = [] := by rw [sD1, hc5]
                          have hlog6 : 6 ∈ st6.log := by
                            rw [sD3]
                            simp
                          refine ⟨?_, ?_⟩
                          · rw [herr6]
                            simp
                          · exact ⟨fun _ => herr6, fun _ => hlog6⟩

/-! ## Claim theorems: pipeline verdict and short-circuiting -/

/-- C1: for every invocation on an existing archive path whose validation
finishes, the pass verdict equals emptiness of the error list alone — the
warnings list never enters the decision — and the process exit code is 0 iff
the error list is empty. -/
theorem claim_C1 (w : World) (b : Bool) (st : St)
    (hex : w.wcpExists = true)
    (h : runValidate w = .ok (b, st)) :
    b = st.errors.isEmpty ∧ (exitCode w = .ok 0 ↔ st.errors = []) := by
  obtain ⟨hcore, -⟩ := runValidate_spec w h
  have hb : b = st.errors.isEmpty := by
    cases hbv : b with
    | true =>
      have := hcore.mp hbv
      rw [this]
      rfl
    | false =>
      cases hev : st.errors.isEmpty with
      | false => rfl
      | true =>
        rw [List.isEmpty_iff] at hev
        cases (hcore.mpr hev).symm.trans hbv
  refine ⟨hb, ?_⟩
  rw [exitCode, h]
  cases hbv : b with
  | true =>
    have he := hcore.mp hbv
    simp [he]
  | false =>
    have hne : st.errors ≠ [] := by
      intro h0
      cases (hcore.mpr h0).symm.trans hbv
    simp [hne]

/-- Witness for C1: a fully passing run at a concrete world. -/
theorem claim_C1_witness :
    runValidate fullWorld = .ok (true, ⟨[], [], [1, 2, 3, 4, 5, 6]⟩) ∧
    (true = ([] : List String).isEmpty ∧
      (exitCode fullWorld = .ok 0 ↔ ([] : List String) = [])) :=
  ⟨by rfl, claim_C1 fullWorld true ⟨[], [], [1, 2, 3, 4, 5, 6]⟩ rfl (by rfl)⟩

/-- C2 (amended): once the manifest is schema-valid, the structure/heuristics
checks of step 6 run iff the error list stays empty — a fatal error recorded
by the file-tree validator or the prefix-archive content validator prevents
them, contrary to the claim as stated. -/
theorem claim_C2 (w : World) (b : Bool) (st : St) (d : PyVal)
    (hjson : w.profileJson = .ok d)
    (hvalid : validate_profile d = .ok (true, []))
    (h : runValidate w = .ok (b, st)) :
    6 ∈ st.log ↔ st.errors = [] :=
  (runValidate_spec w h).2

/-- Witness for C2: the amended equivalence at a fully passing world. -/
theorem claim_C2_witness :
    runValidate fullWorld = .ok (true, ⟨[], [], [1, 2, 3, 4, 5, 6]⟩) ∧
    (6 ∈ ([1, 2, 3, 4, 5, 6] : List Nat) ↔ ([] : List String) = []) :=
  ⟨by rfl, claim_C2 fullWorld true ⟨[], [], [1, 2, 3, 4, 5, 6]⟩ (.dict wineManifest)
    rfl (by rfl) (by rfl)⟩

/-- Counterexample to C2 as stated: a schema-valid Wine manifest whose
declared paths are missing makes the file-tree validator record fatal errors
and return failure, and the run stops after step 4 — the structure/heuristics
step 6 never executes (its banner 6 is absent from the log). -/
theorem claim_C2_cex :
    validate_profile (.dict wineManifest) = .ok (true, []) ∧
    runValidate c2World = .ok (false,
      ⟨["wine.binPath 'bin' is not a directory",
        "wine.libPath 'lib' is not a directory",
        "wine.prefixPack 'prefixPack.txz' is not a file"], [], [1, 2, 3, 4]⟩) ∧
    ¬ 6 ∈ ([1, 2, 3, 4] : List Nat) := by
  refine ⟨by rfl, by rfl, by decide⟩
